import Mathlib

/-!
# Verification of the homepage-sync popularity pipeline

Shallow embedding of `src/sync_games.py`: the record transformer
(`transform_game`), the multi-signal popular-section builder
(`build_popular_section` with its inner `compute_score`), and the genre-section
builder (`build_genres_section`).  External I/O (the IGDB client, Firestore,
`random`, the wall clock) is passed in as explicit parameters; Python floats
are modelled as exact rationals (no claim under study depends on rounding);
Python `dict`s are modelled as association lists where the *last* binding wins,
matching Python's overwrite-on-insert semantics.
-/

namespace SyncGames

/-! ## Configuration constants (src/sync_games.py lines 26-47) -/

def FEATURED_COUNT : Nat := 8
def POPULAR_COUNT : Nat := 10
def GENRE_COUNT : Nat := 12

def GENRE_NAMES : List String :=
  ["Point-and-click", "Fighting", "Shooter", "Music", "Platform", "Puzzle", "Racing",
   "Real Time Strategy (RTS)", "Role-playing (RPG)", "Simulator", "Sport", "Strategy",
   "Turn-based strategy (TBS)", "Tactical", "Hack and slash/Beat 'em up", "Quiz/Trivia",
   "Adventure", "Indie", "Arcade", "Visual Novel", "Card & Board Game", "MOBA"]

/-! ## Python-dict primitives

A Python dict is modelled as an association list in insertion order; since a
later assignment to the same key overwrites the earlier one, lookup scans the
*reversed* list.  `alookup` is `dict.get` restricted to integer keys. -/

def alookup {β : Type} (k : Int) : List (Int × β) → Option β
  | [] => none
  | (k', v) :: rest => if k' = k then some v else alookup k rest

/-- `m.get(k, d)` on a Python dict built by inserting the bindings of `m` in
list order (so the last binding for a key wins). -/
def dictGetD {β : Type} (m : List (Int × β)) (k : Int) (d : β) : β :=
  (alookup k m.reverse).getD d

/-- Python `max(l)` for a nonempty list; the `[]` case is never reached by the
code paths modelled here (Python would raise `ValueError`, which the builder
model accounts for separately). -/
def listMax (l : List Rat) : Rat :=
  match l with
  | [] => 0
  | x :: xs => xs.foldl max x

/-- Python `max(gen, default=d)`. -/
def pyMaxD (l : List Rat) (d : Rat) : Rat :=
  match l with
  | [] => d
  | x :: xs => xs.foldl max x

/-- Python `x or 1` for a number `x`: `0` is falsy. -/
def pyOr1 (q : Rat) : Rat := if q = 0 then 1 else q

/-- Python `x or 100.0` for a number `x` (used for the rating denominator). -/
def pyOr100 (q : Rat) : Rat := if q = 0 then 100 else q

/-! ## Data model

A detail record as consumed by `compute_score`: the fields are read with
`g.get(...)`, so each is optional.  `id` is always present on records returned
by the games endpoint (`g["id"]` is used unchecked). -/

structure Game where
  id : Int
  hypes : Option Rat
  follows : Option Rat
  total_rating : Option Rat
  first_release_date : Option Int
  updated_at : Option Int
deriving DecidableEq, Repr

/-- One row of `popularity_primitives` as used at lines 250-251: `game_id`
may be missing (`r.get("game_id") is not None` filter), `value` defaults
to `0` (`r.get("value", 0)`). -/
structure PrimRow where
  game_id : Option Int
  value : Option Rat
deriving DecidableEq, Repr

/-- Line 250: `{r["game_id"]: r.get("value", 0) for r in rows if r.get("game_id") is not None}`. -/
def buildPrimEntries (rows : List PrimRow) : List (Int × Rat) :=
  rows.filterMap fun r => r.game_id.map fun gid => (gid, r.value.getD 0)

/-- Line 251: `max((r.get("value", 0) for r in rows), default=1)`. -/
def rowsMaxValue (rows : List PrimRow) : Rat :=
  pyMaxD (rows.map fun r => r.value.getD 0) 1

/-! ## The scoring context

Everything `compute_score` closes over: the selected popularity-type ids, the
two per-type dicts, the three pool maxima, and the evaluation time
(`datetime.utcnow()` in epoch seconds). -/

structure ScoreCtx where
  selected_ids : List Int
  primitive_by_type : List (Int × List (Int × Rat))
  max_value_by_type : List (Int × Rat)
  max_hypes_in_pool : Rat
  max_follows_in_pool : Rat
  max_rating : Rat
  now : Int

/-- Lines 304-307: `weight_primitives / len(selected_ids)` when `selected_ids`
is truthy, else `0`. -/
def per_primitive_weight (ctx : ScoreCtx) : Rat :=
  if ctx.selected_ids = [] then 0 else (3/5) / (ctx.selected_ids.length : Rat)

/-- Lines 320-322, one primitive term:
`primitive_by_type.get(tid, {}).get(gid, 0) / (max_value_by_type.get(tid, 1) or 1)`. -/
def primNorm (ctx : ScoreCtx) (tid gid : Int) : Rat :=
  let raw_val := dictGetD (dictGetD ctx.primitive_by_type tid []) gid 0
  let max_val := pyOr1 (dictGetD ctx.max_value_by_type tid 1)
  raw_val / max_val

/-- Line 325: `(g.get("hypes") or 0) / max_hypes_in_pool`. -/
def hypesNorm (ctx : ScoreCtx) (g : Game) : Rat :=
  (g.hypes.getD 0) / ctx.max_hypes_in_pool

/-- Line 326: `(g.get("follows") or 0) / max_follows_in_pool`. -/
def followsNorm (ctx : ScoreCtx) (g : Game) : Rat :=
  (g.follows.getD 0) / ctx.max_follows_in_pool

/-- Line 327: `(g.get("total_rating") or 0) / max_rating`. -/
def ratingNorm (ctx : ScoreCtx) (g : Game) : Rat :=
  (g.total_rating.getD 0) / ctx.max_rating

/-- `(datetime.utcnow() - datetime.utcfromtimestamp(ts)).days`: a
`timedelta`'s `.days` floors toward minus infinity, hence `Int.fdiv`.
The surrounding `try/except` in the source only guards platform
timestamp-range errors (years outside 1..9999), which integer arithmetic
does not exhibit. -/
def daysSince (now ts : Int) : Int := Int.fdiv (now - ts) 86400

/-- Lines 330-340: the release-recency adjustment.  `if release_date:` is a
Python truthiness test, so a *zero* epoch timestamp is treated like a missing
one. -/
def releaseAdj (now : Int) (release_date : Option Int) : Rat :=
  match release_date with
  | none => 0
  | some ts =>
    if ts = 0 then 0
    else if daysSince now ts ≤ 180 then 1/4
    else if daysSince now ts > 1095 then -(1/4)
    else 0

/-- Lines 342-348: the update-recency adjustment, with the same truthiness
test on `updated_at`. -/
def updateAdj (now : Int) (updated_at : Option Int) : Rat :=
  match updated_at with
  | none => 0
  | some ts =>
    if ts = 0 then 0
    else if daysSince now ts ≤ 45 then 3/20
    else 0

/-- Lines 314-350, `compute_score(g)`: weighted normalized signals plus the
recency adjustments.  Weights: primitives 0.6 split evenly, hypes 0.15,
follows 0.1, rating 0.15. -/
def compute_score (ctx : ScoreCtx) (g : Game) : Rat :=
  let primPart := ctx.selected_ids.foldl
    (fun s tid => s + per_primitive_weight ctx * primNorm ctx tid g.id) 0
  primPart
    + (3/20) * hypesNorm ctx g
    + (1/10) * followsNorm ctx g
    + (3/20) * ratingNorm ctx g
    + releaseAdj ctx.now g.first_release_date
    + updateAdj ctx.now g.updated_at

/-! ## The multi-signal popular-section builder (lines 222-354)

External effects become parameters:
* `primFetch tid` — result of `igdb_fetch_popularity_primitives(tid)`;
  `none` models a raised exception (caught at line 253);
* `fallbackRes` — result of the hype-sorted fallback `games` query
  (lines 264-270); `none` models a raised exception (caught at line 275);
* `batchFetch c` — result of `igdb_fetch_games_by_ids(c)` for one chunk;
  `none` models a raised exception (caught at line 289).
-/

/-- Per-type dict `primitive_by_type` after the loop at lines 245-256: a
failed fetch stores `{}`. -/
def primitiveByTypeOf (selIds : List Int) (primFetch : Int → Option (List PrimRow)) :
    List (Int × List (Int × Rat)) :=
  selIds.map fun tid =>
    (tid, match primFetch tid with
          | some rows => buildPrimEntries rows
          | none => [])

/-- Per-type dict `max_value_by_type` after the loop at lines 245-256: a
failed fetch stores `1`. -/
def maxValueByTypeOf (selIds : List Int) (primFetch : Int → Option (List PrimRow)) :
    List (Int × Rat) :=
  selIds.map fun tid =>
    (tid, match primFetch tid with
          | some rows => rowsMaxValue rows
          | none => 1)

/-- Lines 258-261: the union of all per-type primitive game ids.  Python
iterates a `set` in unspecified order; the model fixes first-insertion order,
on which no claim depends. -/
def primCandidateIds (selIds : List Int) (primFetch : Int → Option (List PrimRow)) :
    List Int :=
  (primitiveByTypeOf selIds primFetch).flatMap fun p => p.2.map Prod.fst

/-- Lines 263-276, the fallback-pool `try` block.  Returns the ids added to
the candidate set, the `max_hypes`/`max_follows` bindings, and the log lines
it prints (there are none — the `except` clause is silent).  A successful
fetch of an *empty* list raises inside `max(...)` after the (no-op)
`update`, landing in the same silent `except`, hence the `[]` case also
yields `(1, 1)`. -/
def fallbackStep (res : Option (List Game)) :
    (List Int × Rat × Rat) × List String :=
  match res with
  | none => (([], 1, 1), [])
  | some gs =>
    ((gs.map Game.id,
      if gs = [] then 1 else pyOr1 (listMax (gs.map fun g => g.hypes.getD 0)),
      if gs = [] then 1 else pyOr1 (listMax (gs.map fun g => g.follows.getD 0))), [])

/-- The deduplicated candidate pool `list(candidate_ids)` (lines 258-283). -/
def candidateListOf (selIds : List Int) (primFetch : Int → Option (List PrimRow))
    (fallbackRes : Option (List Game)) : List Int :=
  (primCandidateIds selIds primFetch ++ (fallbackStep fallbackRes).1.1).dedup

/-- Structural worker for `chunked`: the fuel argument only bounds the
recursion depth (one slice consumes at least one element, so `l.length` fuel
always suffices); it keeps the definition kernel-reducible. -/
def chunkedGo (size : Nat) : Nat → List Int → List (List Int)
  | 0, _ => []
  | fuel + 1, l =>
    if l = [] ∨ size = 0 then []
    else (l.take size) :: chunkedGo size fuel (l.drop size)

/-- Lines 217-220, `chunked`: successive slices of `size` elements.  (The
`size = 0` case, which would loop forever in Python's `range` step, is mapped
to `[]`; the source only uses `size = 200`.) -/
def chunked (l : List Int) (size : Nat) : List (List Int) :=
  chunkedGo size l.length l

/-- Lines 284-290: accumulate batch results, skipping failed batches. -/
def gatherDetails (batchFetch : List Int → Option (List Game))
    (chunks : List (List Int)) : List Game :=
  chunks.foldl
    (fun acc c => match batchFetch c with
                  | some gs => acc ++ gs
                  | none => acc) []

/-- One `"[popular] error fetching game batch"` log line per failed batch
(line 290). -/
def batchLogsOf (batchFetch : List Int → Option (List Game))
    (chunks : List (List Int)) : List String :=
  chunks.filterMap fun c =>
    match batchFetch c with
    | some _ => none
    | none => some "[popular] error fetching game batch"

/-- Lines 292-312: the scoring context assembled from the candidate details.
(`max(...)` at lines 293-295 has no `default`, so the builder below treats an
empty `game_details` as a raised `ValueError` before this context is used.) -/
def scoreCtxOf (selIds : List Int) (primFetch : Int → Option (List PrimRow))
    (game_details : List Game) (now : Int) : ScoreCtx where
  selected_ids := selIds
  primitive_by_type := primitiveByTypeOf selIds primFetch
  max_value_by_type := maxValueByTypeOf selIds primFetch
  max_hypes_in_pool := pyOr1 (listMax (game_details.map fun g => g.hypes.getD 0))
  max_follows_in_pool := pyOr1 (listMax (game_details.map fun g => g.follows.getD 0))
  max_rating := pyOr100 (listMax (game_details.map fun g => g.total_rating.getD 0))
  now := now

/-- Outcome of the multi-signal path of `build_popular_section`: it either
delegates to `_fallback_popular_section` (line 280), dies on the uncaught
`ValueError` from `max()` over an empty `game_details` (line 293), or returns
the ranked top `POPULAR_COUNT` games. -/
inductive BuildOutcome where
  | fellBack
  | crashed
  | ok (top : List Game)
deriving DecidableEq, Repr

/-- Lines 258-354 of `build_popular_section` (after popularity-type selection),
together with the log lines printed for soft failures.  `sorted(..., key=
compute_score, reverse=True)` is Python's stable descending sort, i.e.
`mergeSort` with `compute_score b ≤ compute_score a` deciding "keep left". -/
def build_popular_core (selIds : List Int) (primFetch : Int → Option (List PrimRow))
    (fallbackRes : Option (List Game)) (batchFetch : List Int → Option (List Game))
    (now : Int) : BuildOutcome × List String :=
  let primLogs := selIds.filterMap fun tid =>
    match primFetch tid with
    | some _ => none
    | none => some "[popular] failed to fetch primitives for type"
  let cl := candidateListOf selIds primFetch fallbackRes
  if cl = [] then
    (.fellBack, primLogs ++ (fallbackStep fallbackRes).2 ++ ["[popular] no candidates found, falling back"])
  else
    let chunks := chunked cl 200
    let game_details := gatherDetails batchFetch chunks
    let logs := primLogs ++ (fallbackStep fallbackRes).2 ++ batchLogsOf batchFetch chunks
    if game_details = [] then
      (.crashed, logs)
    else
      let ctx := scoreCtxOf selIds primFetch game_details now
      let top := (game_details.insertionSort
        (fun a b => compute_score ctx b ≤ compute_score ctx a)).take POPULAR_COUNT
      (.ok top, logs)

/-! ## JSON values and Python semantics for the record transformer -/

/-- A parsed JSON value as the transformer sees it.  Numbers are collapsed to
`Rat` (IGDB ids and timestamps are integers, ratings floats; no claim
distinguishes them). -/
inductive JVal where
  | jnull
  | jnum (q : Rat)
  | jstr (s : String)
  | jarr (xs : List JVal)
  | jobj (fs : List (String × JVal))

/-- Python truthiness of a JSON value: `None`, `0`, `""`, `[]`, `{}` are
falsy. -/
def JVal.truthy : JVal → Bool
  | .jnull => false
  | .jnum q => decide (q ≠ 0)
  | .jstr s => decide (s ≠ "")
  | .jarr xs => !xs.isEmpty
  | .jobj fs => !fs.isEmpty

/-- Lookup in a string-keyed association list (JSON objects have unique keys,
so first-match lookup agrees with Python-dict semantics). -/
def slookup {β : Type} (k : String) : List (String × β) → Option β
  | [] => none
  | (k', v) :: rest => if k' = k then some v else slookup k rest

/-- Python `raw.get(k)`: `None` when the key is absent. -/
def jget (fs : List (String × JVal)) (k : String) : JVal :=
  (slookup k fs).getD .jnull

/-- The single modelled Python exception kind; the claims under study never
distinguish exception classes. -/
inductive PyErr where
  | attributeError
  | typeError
deriving DecidableEq, Repr

/-! ### `str.replace`, embedded on character lists

Python's `str.replace(pat, rep)` rewrites non-overlapping occurrences left to
right.  (The empty-pattern case behaves differently in Python but is never
exercised: the source only replaces `"t_thumb"`.) -/

/-- One rewriting pass over the subject string.  The fuel argument only
bounds the recursion depth (each step consumes at least one character, so the
subject's length always suffices); it keeps the definition kernel-reducible. -/
def replaceAux (pat rep : List Char) : Nat → List Char → List Char
  | 0, l => l
  | _, [] => []
  | fuel + 1, c :: rest =>
    if pat ≠ [] ∧ pat.isPrefixOf (c :: rest) then
      rep ++ replaceAux pat rep fuel ((c :: rest).drop pat.length)
    else
      c :: replaceAux pat rep fuel rest

/-- `s.replace(pat, rep)` for nonempty `pat`. -/
def pyReplace (s pat rep : String) : String :=
  ⟨replaceAux pat.data rep.data s.data.length s.data⟩

/-- Whether `pat` occurs as a contiguous substring of `l`. -/
def hasSub (pat : List Char) : List Char → Bool
  | [] => pat.isEmpty
  | c :: rest => pat.isPrefixOf (c :: rest) || hasSub pat rest

/-! ### The transformer (lines 137-173) -/

/-- Lines 138-141, `format_cover_url`: `None` for a falsy url, else prepend
`"https:"` and substitute the thumbnail token; `.replace` on a truthy
non-string raises. -/
def format_cover_url (url : JVal) : Except PyErr JVal :=
  if url.truthy then
    match url with
    | .jstr s => .ok (.jstr ("https:" ++ pyReplace s "t_thumb" "t_cover_big"))
    | _ => .error .attributeError
  else .ok .jnull

/-- Lines 143-146, `format_screenshot_url`. -/
def format_screenshot_url (url : JVal) : Except PyErr JVal :=
  if url.truthy then
    match url with
    | .jstr s => .ok (.jstr ("https:" ++ pyReplace s "t_thumb" "t_screenshot_med"))
    | _ => .error .attributeError
  else .ok .jnull

/-- Lines 148-156: the base dict is built with `raw_game.get(...)`, so every
one of these seven keys is always present, `None`-valued when the raw field
is absent. -/
def scalarPart (raw : List (String × JVal)) : List (String × JVal) :=
  [("id", jget raw "id"),
   ("name", jget raw "name"),
   ("summary", jget raw "summary"),
   ("storyline", jget raw "storyline"),
   ("total_rating", jget raw "total_rating"),
   ("first_release_date", jget raw "first_release_date"),
   ("igdb_url", jget raw "url")]

/-- Lines 158-160, on the cover value: `if cover and cover.get("url")`.  A
falsy `cover` short-circuits (no key); a truthy non-dict raises at
`cover.get`; a truthy non-string url raises inside `format_cover_url`. -/
def coverPartAux : JVal → Except PyErr (List (String × JVal))
  | .jobj cf =>
    if (JVal.jobj cf).truthy then
      (if (jget cf "url").truthy then do
        let v ← format_cover_url (jget cf "url")
        pure [("cover_url", v)]
      else pure [])
    else pure []
  | v => if v.truthy then .error .attributeError else pure []

def coverPart (raw : List (String × JVal)) : Except PyErr (List (String × JVal)) :=
  coverPartAux (jget raw "cover")

/-- The list comprehension at line 164, element by element: a non-dict entry
raises at `s.get`; entries with a falsy url are filtered out. -/
def shotUrls : List JVal → Except PyErr (List JVal)
  | [] => pure []
  | s :: rest =>
    match s with
    | .jobj fs =>
      let u := jget fs "url"
      if u.truthy then do
        let v ← format_screenshot_url u
        let vs ← shotUrls rest
        pure (v :: vs)
      else shotUrls rest
    | _ => .error .attributeError

/-- Lines 162-164, on the screenshots value: `if screenshots:` then the
comprehension.  Iterating a truthy non-list raises (uncaught). -/
def screenshotsPartAux : JVal → Except PyErr (List (String × JVal))
  | .jarr xs =>
    if (JVal.jarr xs).truthy then do
      let l ← shotUrls xs
      pure [("screenshots", .jarr l)]
    else pure []
  | v => if v.truthy then .error .typeError else pure []

def screenshotsPart (raw : List (String × JVal)) : Except PyErr (List (String × JVal)) :=
  screenshotsPartAux (jget raw "screenshots")

/-- One step of the classification comprehension: a dict item is kept when
its `name` is truthy, and any non-dict item — or an already-raised exception
(`none` accumulator) — poisons the whole comprehension. -/
def flattenStep : JVal → Option (List JVal) → Option (List JVal) :=
  fun item acc =>
    match item, acc with
    | .jobj fs, some l =>
      let n := jget fs "name"
      some (if n.truthy then n :: l else l)
    | _, _ => none

/-- The comprehension at line 169, as swallowed by the `try/except`: `none`
models *any* raised exception (a non-dict item, or iterating a non-list
value), in which case the whole field assignment is skipped; dict items
whose `name` is falsy are filtered out individually. -/
def flattenNames : JVal → Option (List JVal)
  | .jarr xs => xs.foldr flattenStep (some [])
  | _ => none

def classFields : List String :=
  ["player_perspectives", "game_engines", "game_modes", "genres"]

/-- The value (if any) stored for one classification field: the field's key
must be present in the raw record (`if field in raw_game`), and the guarded
comprehension must not raise. -/
def classValue (raw : List (String × JVal)) (f : String) : Option (List JVal) :=
  if (slookup f raw).isSome then flattenNames (jget raw f) else none

/-- Lines 166-171: the four classification-field assignments in loop order. -/
def classPart (raw : List (String × JVal)) : List (String × JVal) :=
  classFields.filterMap fun f =>
    match classValue raw f with
    | some l => some (f, JVal.jarr l)
    | none => none

/-- Lines 137-173, `transform_game`: base dict, then cover, screenshots and
classification keys in insertion order.  Exceptions from the cover block
surface before those from the screenshots block, as in the source. -/
def transform_game (raw : List (String × JVal)) : Except PyErr (List (String × JVal)) := do
  let c ← coverPart raw
  let s ← screenshotsPart raw
  pure (scalarPart raw ++ c ++ s ++ classPart raw)

/-! ## The genre-section builder (lines 191-209)

Parameters model the collaborators: `nameToId` is the `genre_name_to_id`
dict resolved in `main`; `count gid` is `igdb_count` for the genre's filter;
`pick gid` is the `random.randint` draw (an oracle — no claim depends on its
bounds); `fetch gid offset` is the page fetch.  Raw records feed
`transform_game`, whose exceptions would propagate (none of the modelled
claims need them to fire). -/

/-- The per-genre list stored into `genres_out[name]` (lines 194-208):
empty when the id resolution misses (`if not genre_id:` — missing *or zero*,
by truthiness) or when the count query finds nothing; otherwise the fetched
page mapped through `transform_game`, whose exceptions propagate. -/
def genreEntry (nameToId : String → Option Int) (count : Int → Int)
    (pick : Int → Int) (fetch : Int → Int → List (List (String × JVal)))
    (name : String) : Except PyErr (List (List (String × JVal))) :=
  match nameToId name with
  | none => .ok []
  | some gid =>
    if gid = 0 then .ok []
    else if count gid ≤ 0 then .ok []
    else (fetch gid (pick gid)).mapM transform_game

def build_genres_section (nameToId : String → Option Int) (count : Int → Int)
    (pick : Int → Int) (fetch : Int → Int → List (List (String × JVal))) :
    List String → Except PyErr (List (String × List (List (String × JVal))))
  | [] => .ok []
  | name :: rest =>
    match genreEntry nameToId count pick fetch name with
    | .error e => .error e
    | .ok ts =>
      match build_genres_section nameToId count pick fetch rest with
      | .error e => .error e
      | .ok r => .ok ((name, ts) :: r)

/-! ## Helper lemmas: maxima, dict lookups, unit-interval division -/

theorem init_le_foldl_max (xs : List Rat) (b : Rat) : b ≤ xs.foldl max b := by
  induction xs generalizing b with
  | nil => exact le_refl b
  | cons x xs ih => exact le_trans (le_max_left b x) (ih (max b x))

theorem mem_le_foldl_max {x : Rat} (xs : List Rat) (b : Rat) (hx : x ∈ xs) :
    x ≤ xs.foldl max b := by
  induction xs generalizing b with
  | nil => cases hx
  | cons y ys ih =>
    rcases List.mem_cons.mp hx with h | h
    · subst h
      exact le_trans (le_max_right b x) (init_le_foldl_max ys (max b x))
    · exact ih (max b y) h

theorem mem_le_pyMaxD {x : Rat} {l : List Rat} (d : Rat) (hx : x ∈ l) :
    x ≤ pyMaxD l d := by
  cases l with
  | nil => cases hx
  | cons y ys =>
    rcases List.mem_cons.mp hx with h | h
    · subst h; exact init_le_foldl_max ys x
    · exact mem_le_foldl_max ys y h

theorem pyMaxD_nonneg {l : List Rat} {d : Rat} (hd : 0 ≤ d)
    (hl : ∀ x ∈ l, 0 ≤ x) : 0 ≤ pyMaxD l d := by
  cases l with
  | nil => exact hd
  | cons y ys =>
    exact le_trans (hl y (List.mem_cons_self y ys)) (init_le_foldl_max ys y)

theorem mem_le_listMax {x : Rat} {l : List Rat} (hx : x ∈ l) : x ≤ listMax l := by
  cases l with
  | nil => cases hx
  | cons y ys =>
    rcases List.mem_cons.mp hx with h | h
    · subst h; exact init_le_foldl_max ys x
    · exact mem_le_foldl_max ys y h

theorem listMax_nonneg {l : List Rat} (hne : l ≠ [])
    (hl : ∀ x ∈ l, 0 ≤ x) : 0 ≤ listMax l := by
  cases l with
  | nil => exact absurd rfl hne
  | cons y ys =>
    exact le_trans (hl y (List.mem_cons_self y ys)) (init_le_foldl_max ys y)

theorem foldl_max_all_zero (l : List Rat) (hl : ∀ x ∈ l, x = 0) :
    l.foldl max 0 = 0 := by
  induction l with
  | nil => rfl
  | cons y ys ih =>
    have hy : y = 0 := hl y (List.mem_cons_self y ys)
    rw [List.foldl_cons, hy, max_self]
    exact ih fun x hx => hl x (List.mem_cons.mpr (Or.inr hx))

theorem listMax_of_all_zero {l : List Rat} (hl : ∀ x ∈ l, x = 0) :
    listMax l = 0 := by
  cases l with
  | nil => rfl
  | cons y ys =>
    have hy : y = 0 := hl y (List.mem_cons_self y ys)
    show ys.foldl max y = 0
    rw [hy]
    exact foldl_max_all_zero ys fun x hx => hl x (List.mem_cons.mpr (Or.inr hx))

theorem alookup_eq_some_mem {β : Type} {k : Int} {v : β} {l : List (Int × β)}
    (h : alookup k l = some v) : (k, v) ∈ l := by
  induction l with
  | nil => simp [alookup] at h
  | cons p rest ih =>
    obtain ⟨k', v'⟩ := p
    by_cases hk : k' = k
    · subst hk
      simp only [alookup, if_pos rfl] at h
      cases h
      exact List.mem_cons_self _ _
    · simp only [alookup, if_neg hk] at h
      exact List.mem_cons.mpr (Or.inr (ih h))

theorem alookup_eq_none {β : Type} {k : Int} {l : List (Int × β)}
    (h : ∀ p ∈ l, p.1 ≠ k) : alookup k l = none := by
  induction l with
  | nil => rfl
  | cons p rest ih =>
    obtain ⟨k', v'⟩ := p
    have hk : k' ≠ k := h (k', v') (List.mem_cons_self _ _)
    simp only [alookup, if_neg hk]
    exact ih fun q hq => h q (List.mem_cons.mpr (Or.inr hq))

theorem alookup_map_self {β : Type} (f : Int → β) (k : Int) (l : List Int) :
    alookup k (l.map fun t => (t, f t)) = if k ∈ l then some (f k) else none := by
  induction l with
  | nil => rfl
  | cons t rest ih =>
    by_cases ht : t = k
    · subst ht
      simp [alookup]
    · simp only [List.map_cons, alookup, if_neg ht, ih, List.mem_cons]
      by_cases hk : k ∈ rest
      · simp [hk, Ne.symm ht]
      · simp [hk, Ne.symm ht]

/-- `dictGetD` over a dict built by mapping a function over a key list. -/
theorem dictGetD_map_self {β : Type} (f : Int → β) (k : Int) (l : List Int) (d : β) :
    dictGetD (l.map fun t => (t, f t)) k d = if k ∈ l then f k else d := by
  unfold dictGetD
  rw [← List.map_reverse, alookup_map_self]
  by_cases hk : k ∈ l
  · simp [List.mem_reverse, hk]
  · simp [List.mem_reverse, hk]

/-- Dividing by the floored denominator `x or 1` keeps a value that is
sandwiched by the maximum inside `[0, 1]`. -/
theorem div_pyOr1_mem_unit {raw m : Rat} (h0 : 0 ≤ raw) (hle : raw ≤ m) :
    0 ≤ raw / pyOr1 m ∧ raw / pyOr1 m ≤ 1 := by
  unfold pyOr1
  by_cases hm : m = 0
  · subst hm
    have : raw = 0 := le_antisymm hle h0
    simp [this]
  · rw [if_neg hm]
    have hmpos : 0 < m := lt_of_le_of_ne (le_trans h0 hle) (Ne.symm hm)
    exact ⟨div_nonneg h0 hmpos.le, (div_le_one hmpos).mpr hle⟩

/-- Same for the rating denominator `x or 100.0`. -/
theorem div_pyOr100_mem_unit {raw m : Rat} (h0 : 0 ≤ raw) (hle : raw ≤ m) :
    0 ≤ raw / pyOr100 m ∧ raw / pyOr100 m ≤ 1 := by
  unfold pyOr100
  by_cases hm : m = 0
  · subst hm
    have : raw = 0 := le_antisymm hle h0
    simp [this]
  · rw [if_neg hm]
    have hmpos : 0 < m := lt_of_le_of_ne (le_trans h0 hle) (Ne.symm hm)
    exact ⟨div_nonneg h0 hmpos.le, (div_le_one hmpos).mpr hle⟩

/-! ## Facts about the per-type primitive dict -/

/-- The value `primitive_by_type[tid].get(gid, 0)` is either the dict default
`0` or the `value` of some fetched row carrying that game id. -/
theorem primRaw_cases (rows : List PrimRow) (gid : Int) :
    dictGetD (buildPrimEntries rows) gid 0 = 0 ∨
    ∃ r ∈ rows, r.game_id = some gid ∧
      dictGetD (buildPrimEntries rows) gid 0 = r.value.getD 0 := by
  unfold dictGetD
  cases halo : alookup gid (buildPrimEntries rows).reverse with
  | none => exact Or.inl rfl
  | some v =>
    right
    have hmem : (gid, v) ∈ (buildPrimEntries rows).reverse := alookup_eq_some_mem halo
    rw [List.mem_reverse] at hmem
    unfold buildPrimEntries at hmem
    obtain ⟨r, hr, hmap⟩ := List.mem_filterMap.mp hmem
    cases hgid : r.game_id with
    | none => rw [hgid] at hmap; cases hmap
    | some gid' =>
      rw [hgid] at hmap
      simp only [Option.map] at hmap
      cases hmap
      exact ⟨r, hr, hgid, rfl⟩

/-- A game id carried by no fetched row gets the dict default `0`. -/
theorem primRaw_absent (rows : List PrimRow) (gid : Int)
    (habs : ∀ r ∈ rows, r.game_id ≠ some gid) :
    dictGetD (buildPrimEntries rows) gid 0 = 0 := by
  unfold dictGetD
  rw [alookup_eq_none, Option.getD_none]
  intro p hp
  rw [List.mem_reverse] at hp
  unfold buildPrimEntries at hp
  obtain ⟨r, hr, hmap⟩ := List.mem_filterMap.mp hp
  cases hgid : r.game_id with
  | none => rw [hgid] at hmap; cases hmap
  | some gid' =>
    rw [hgid] at hmap
    simp only [Option.map] at hmap
    cases hmap
    intro hcontra
    exact habs r hr (hcontra ▸ hgid)

/-- Every raw value stored in the per-type dict is bounded by that type's
recorded maximum (`max(..., default=1)` ranges over *all* fetched rows). -/
theorem primRaw_le_rowsMax (rows : List PrimRow) (gid : Int)
    (hvals : ∀ r ∈ rows, 0 ≤ r.value.getD 0) :
    0 ≤ dictGetD (buildPrimEntries rows) gid 0 ∧
    dictGetD (buildPrimEntries rows) gid 0 ≤ rowsMaxValue rows := by
  rcases primRaw_cases rows gid with h | ⟨r, hr, _, h⟩
  · rw [h]
    refine ⟨le_refl 0, ?_⟩
    exact pyMaxD_nonneg (by norm_num) (by
      intro x hx
      obtain ⟨r', hr', hx'⟩ := List.mem_map.mp hx
      exact hx' ▸ hvals r' hr')
  · rw [h]
    refine ⟨hvals r hr, ?_⟩
    exact mem_le_pyMaxD 1 (List.mem_map.mpr ⟨r, hr, rfl⟩)

/-! ## C1 -/

/-- **C1.**  For every candidate pool and every candidate in it, each
normalized sub-score of `compute_score` — per-type value over the type's
top-K maximum, hypes/follows over the pool maxima, rating over the pool
maximum — lies in `[0, 1]`, and a candidate absent from a type's fetched
top-K rows contributes `0` for that type.  Raw provider values (popularity
primitive values, hype and follower counts, ratings) are nonnegative, which
the hypotheses record. -/
theorem normalized_subscores_unit_interval
    (selIds : List Int) (primFetch : Int → Option (List PrimRow))
    (gd : List Game) (now : Int) (g : Game)
    (hvals : ∀ tid rows, primFetch tid = some rows → ∀ r ∈ rows, 0 ≤ r.value.getD 0)
    (hhyp : ∀ g' ∈ gd, 0 ≤ g'.hypes.getD 0)
    (hfol : ∀ g' ∈ gd, 0 ≤ g'.follows.getD 0)
    (hrat : ∀ g' ∈ gd, 0 ≤ g'.total_rating.getD 0)
    (hg : g ∈ gd) :
    (∀ tid, 0 ≤ primNorm (scoreCtxOf selIds primFetch gd now) tid g.id ∧
            primNorm (scoreCtxOf selIds primFetch gd now) tid g.id ≤ 1) ∧
    (∀ tid, (∀ rows, primFetch tid = some rows → ∀ r ∈ rows, r.game_id ≠ some g.id) →
            primNorm (scoreCtxOf selIds primFetch gd now) tid g.id = 0) ∧
    (0 ≤ hypesNorm (scoreCtxOf selIds primFetch gd now) g ∧
         hypesNorm (scoreCtxOf selIds primFetch gd now) g ≤ 1) ∧
    (0 ≤ followsNorm (scoreCtxOf selIds primFetch gd now) g ∧
         followsNorm (scoreCtxOf selIds primFetch gd now) g ≤ 1) ∧
    (0 ≤ ratingNorm (scoreCtxOf selIds primFetch gd now) g ∧
         ratingNorm (scoreCtxOf selIds primFetch gd now) g ≤ 1) := by
  have hpbt : ∀ tid, dictGetD (scoreCtxOf selIds primFetch gd now).primitive_by_type tid [] =
      if tid ∈ selIds then
        (match primFetch tid with
         | some rows => buildPrimEntries rows
         | none => []) else [] := by
    intro tid
    show dictGetD (primitiveByTypeOf selIds primFetch) tid [] = _
    exact dictGetD_map_self _ tid selIds []
  have hmvt : ∀ tid, dictGetD (scoreCtxOf selIds primFetch gd now).max_value_by_type tid 1 =
      if tid ∈ selIds then
        (match primFetch tid with
         | some rows => rowsMaxValue rows
         | none => 1) else 1 := by
    intro tid
    show dictGetD (maxValueByTypeOf selIds primFetch) tid 1 = _
    exact dictGetD_map_self _ tid selIds 1
  refine ⟨?_, ?_, ?_, ?_, ?_⟩
  · -- per-type normalized values lie in [0, 1]
    intro tid
    unfold primNorm
    rw [hpbt tid, hmvt tid]
    by_cases hmem : tid ∈ selIds
    · rw [if_pos hmem, if_pos hmem]
      cases hfetch : primFetch tid with
      | none =>
        show 0 ≤ dictGetD [] g.id 0 / pyOr1 1 ∧ dictGetD [] g.id 0 / pyOr1 1 ≤ 1
        norm_num [dictGetD, alookup, pyOr1]
      | some rows =>
        obtain ⟨h0, hle⟩ := primRaw_le_rowsMax rows g.id (hvals tid rows hfetch)
        exact div_pyOr1_mem_unit h0 hle
    · rw [if_neg hmem, if_neg hmem]
      show 0 ≤ dictGetD [] g.id 0 / pyOr1 1 ∧ dictGetD [] g.id 0 / pyOr1 1 ≤ 1
      norm_num [dictGetD, alookup, pyOr1]
  · -- absence from a type's fetched top-K yields a zero contribution
    intro tid habs
    unfold primNorm
    rw [hpbt tid]
    by_cases hmem : tid ∈ selIds
    · rw [if_pos hmem]
      cases hfetch : primFetch tid with
      | none =>
        show dictGetD [] g.id 0 / _ = 0
        simp [dictGetD, alookup]
      | some rows =>
        show dictGetD (buildPrimEntries rows) g.id 0 / _ = 0
        rw [primRaw_absent rows g.id (habs rows hfetch), zero_div]
    · rw [if_neg hmem]
      show dictGetD [] g.id 0 / _ = 0
      simp [dictGetD, alookup]
  · -- hypes
    unfold hypesNorm
    show 0 ≤ (g.hypes.getD 0) / pyOr1 (listMax (gd.map fun g' => g'.hypes.getD 0)) ∧ _
    exact div_pyOr1_mem_unit (hhyp g hg)
      (mem_le_listMax (List.mem_map.mpr ⟨g, hg, rfl⟩))
  · -- follows
    unfold followsNorm
    show 0 ≤ (g.follows.getD 0) / pyOr1 (listMax (gd.map fun g' => g'.follows.getD 0)) ∧ _
    exact div_pyOr1_mem_unit (hfol g hg)
      (mem_le_listMax (List.mem_map.mpr ⟨g, hg, rfl⟩))
  · -- rating
    unfold ratingNorm
    show 0 ≤ (g.total_rating.getD 0) / pyOr100 (listMax (gd.map fun g' => g'.total_rating.getD 0)) ∧ _
    exact div_pyOr100_mem_unit (hrat g hg)
      (mem_le_listMax (List.mem_map.mpr ⟨g, hg, rfl⟩))

/-! ### Concrete exercise data shared by the witnesses -/

def exRows : List PrimRow := [⟨some 1, some 10⟩, ⟨some 2, some 7⟩]

def exPrimFetch : Int → Option (List PrimRow) :=
  fun tid => if tid = 5 then some exRows else none

def exG1 : Game := ⟨1, some 3, some 4, some 80, none, none⟩

def exG2 : Game := ⟨2, none, some 9, none, some 0, some 1000⟩

def exPool : List Game := [exG1, exG2]

/-- Witness for C1: a pool of two games and one fetched popularity type;
every hypothesis holds by computation and the hype sub-score bound follows
by instantiating the theorem. -/
theorem normalized_subscores_unit_interval_witness :
    0 ≤ hypesNorm (scoreCtxOf [5] exPrimFetch exPool 0) exG1 ∧
    hypesNorm (scoreCtxOf [5] exPrimFetch exPool 0) exG1 ≤ 1 :=
  (normalized_subscores_unit_interval [5] exPrimFetch exPool 0 exG1
    (by
      intro tid rows h
      unfold exPrimFetch at h
      split at h
      · cases h; decide
      · cases h)
    (by decide) (by decide) (by decide) (by decide)).2.2.1

/-! ## C2 -/

/-- The recency adjustment as the (amended) claim words it: a flat `+0.25`
for a present, *nonzero* release timestamp at most 180 whole days old, a
flat `-0.25` for one strictly more than 1095 whole days old, an additional
`+0.15` for a present, nonzero update timestamp at most 45 whole days old,
and no contribution from a missing (or zero) timestamp.  This definition
follows the claim's words and is compared against `compute_score` below. -/
def claimedRecencyAdj (now : Int) (release_date updated_at : Option Int) : Rat :=
  (match release_date with
   | some ts =>
     if ts ≠ 0 ∧ daysSince now ts ≤ 180 then 1/4
     else if ts ≠ 0 ∧ 1095 < daysSince now ts then -(1/4)
     else 0
   | none => 0)
  + (match updated_at with
     | some ts => if ts ≠ 0 ∧ daysSince now ts ≤ 45 then 3/20 else 0
     | none => 0)

theorem claimedRecencyAdj_eq (now : Int) (rel upd : Option Int) :
    claimedRecencyAdj now rel upd = releaseAdj now rel + updateAdj now upd := by
  cases rel <;> cases upd <;>
    simp only [claimedRecencyAdj, releaseAdj, updateAdj, gt_iff_lt] <;>
    split_ifs <;>
    first
      | rfl
      | tauto

/-- **C2 (amended).**  The adjustment `compute_score` adds on top of the
timestamp-free score is exactly the claimed recency adjustment, with
"timestamp exists" strengthened to "exists and is nonzero": `+0.25` for a
release at most 180 whole days old, `-0.25` for one strictly older than
1095 whole days, an additional `+0.15` for an update at most 45 whole days
old, nothing for a missing — or zero, by Python truthiness — timestamp. -/
theorem compute_score_recency_decomposition (ctx : ScoreCtx) (g : Game) :
    compute_score ctx g =
      compute_score ctx { g with first_release_date := none, updated_at := none }
        + claimedRecencyAdj ctx.now g.first_release_date g.updated_at := by
  unfold compute_score
  rw [claimedRecencyAdj_eq]
  show _ =
    _ + (3/20) * hypesNorm ctx g + (1/10) * followsNorm ctx g + (3/20) * ratingNorm ctx g
      + releaseAdj ctx.now none + updateAdj ctx.now none
      + (releaseAdj ctx.now g.first_release_date + updateAdj ctx.now g.updated_at)
  have hrel0 : releaseAdj ctx.now none = 0 := rfl
  have hupd0 : updateAdj ctx.now none = 0 := rfl
  rw [hrel0, hupd0]
  ring

/-- Counterexample to **C2 as stated**: a candidate whose release timestamp
*exists* with value `0` (the Unix epoch, far more than 1095 days before the
evaluation time 2025-10-12) receives *no* adjustment, not the claimed
`-0.25` penalty: `if release_date:` is falsy for `0`. -/
theorem recency_zero_timestamp_cex :
    compute_score (scoreCtxOf [] (fun _ => none) [⟨1, none, none, none, some 0, none⟩] 1760227200)
        ⟨1, none, none, none, some 0, none⟩
      = compute_score (scoreCtxOf [] (fun _ => none) [⟨1, none, none, none, some 0, none⟩] 1760227200)
        ⟨1, none, none, none, none, none⟩ ∧
    compute_score (scoreCtxOf [] (fun _ => none) [⟨1, none, none, none, some 0, none⟩] 1760227200)
        ⟨1, none, none, none, some 0, none⟩
      ≠ compute_score (scoreCtxOf [] (fun _ => none) [⟨1, none, none, none, some 0, none⟩] 1760227200)
        ⟨1, none, none, none, none, none⟩ - 1/4 ∧
    1095 < daysSince 1760227200 0 := by
  have hsame :
      compute_score (scoreCtxOf [] (fun _ => none) [⟨1, none, none, none, some 0, none⟩] 1760227200)
        ⟨1, none, none, none, some 0, none⟩
      = compute_score (scoreCtxOf [] (fun _ => none) [⟨1, none, none, none, some 0, none⟩] 1760227200)
        ⟨1, none, none, none, none, none⟩ := by
    unfold compute_score
    norm_num [releaseAdj, updateAdj, hypesNorm, followsNorm, ratingNorm]
  refine ⟨hsame, ?_, by decide⟩
  rw [hsame]
  intro hcontra
  linarith

/-! ## C5 -/

/-- Counterexample to **C5 as stated**: in a pool whose candidates all have
the *same nonzero* hype count (here a single candidate with 100 hypes), the
normalized hype value is `1`, not `0` — the all-equal raw value normalizes
to `0` only when that value is zero. -/
theorem equal_raw_values_cex :
    (∀ g' ∈ [(⟨7, some 100, none, none, none, none⟩ : Game)], g'.hypes.getD 0 = 100) ∧
    hypesNorm (scoreCtxOf [] (fun _ => none) [⟨7, some 100, none, none, none, none⟩] 0)
      ⟨7, some 100, none, none, none, none⟩ = 1 ∧
    (1 : Rat) ≠ 0 := by
  refine ⟨?_, ?_, by norm_num⟩
  · intro g' hg'
    rcases List.mem_singleton.mp hg' with rfl
    rfl
  · show (100 : Rat) / pyOr1 (listMax [(100 : Rat)]) = 1
    norm_num [listMax, pyOr1]

/-- **C5 (amended).**  A pool in which a signal's raw values are all zero
(or absent, which reads as zero) yields normalized value `0` for that signal
for every candidate; this is guarded by flooring the denominator — at `1`
for hypes and follows, and at `100` for the rating. -/
theorem all_zero_signal_normalizes_to_zero
    (selIds : List Int) (primFetch : Int → Option (List PrimRow))
    (gd : List Game) (now : Int) :
    ((∀ g' ∈ gd, g'.hypes.getD 0 = 0) →
      (scoreCtxOf selIds primFetch gd now).max_hypes_in_pool = 1 ∧
      ∀ g ∈ gd, hypesNorm (scoreCtxOf selIds primFetch gd now) g = 0) ∧
    ((∀ g' ∈ gd, g'.follows.getD 0 = 0) →
      (scoreCtxOf selIds primFetch gd now).max_follows_in_pool = 1 ∧
      ∀ g ∈ gd, followsNorm (scoreCtxOf selIds primFetch gd now) g = 0) ∧
    ((∀ g' ∈ gd, g'.total_rating.getD 0 = 0) →
      (scoreCtxOf selIds primFetch gd now).max_rating = 100 ∧
      ∀ g ∈ gd, ratingNorm (scoreCtxOf selIds primFetch gd now) g = 0) := by
  refine ⟨fun hz => ?_, fun hz => ?_, fun hz => ?_⟩
  · have hmax : listMax (gd.map fun g' => g'.hypes.getD 0) = 0 :=
      listMax_of_all_zero (by
        intro x hx
        obtain ⟨g', hg', hx'⟩ := List.mem_map.mp hx
        exact hx' ▸ hz g' hg')
    constructor
    · show pyOr1 (listMax (gd.map fun g' => g'.hypes.getD 0)) = 1
      rw [hmax]; norm_num [pyOr1]
    · intro g hg
      show (g.hypes.getD 0) / pyOr1 (listMax (gd.map fun g' => g'.hypes.getD 0)) = 0
      rw [hz g hg, zero_div]
  · have hmax : listMax (gd.map fun g' => g'.follows.getD 0) = 0 :=
      listMax_of_all_zero (by
        intro x hx
        obtain ⟨g', hg', hx'⟩ := List.mem_map.mp hx
        exact hx' ▸ hz g' hg')
    constructor
    · show pyOr1 (listMax (gd.map fun g' => g'.follows.getD 0)) = 1
      rw [hmax]; norm_num [pyOr1]
    · intro g hg
      show (g.follows.getD 0) / pyOr1 (listMax (gd.map fun g' => g'.follows.getD 0)) = 0
      rw [hz g hg, zero_div]
  · have hmax : listMax (gd.map fun g' => g'.total_rating.getD 0) = 0 :=
      listMax_of_all_zero (by
        intro x hx
        obtain ⟨g', hg', hx'⟩ := List.mem_map.mp hx
        exact hx' ▸ hz g' hg')
    constructor
    · show pyOr100 (listMax (gd.map fun g' => g'.total_rating.getD 0)) = 100
      rw [hmax]; norm_num [pyOr100]
    · intro g hg
      show (g.total_rating.getD 0) / pyOr100 (listMax (gd.map fun g' => g'.total_rating.getD 0)) = 0
      rw [hz g hg, zero_div]

/-- Witness for the amended C5: a one-candidate pool with zero hypes. -/
theorem all_zero_signal_normalizes_to_zero_witness :
    hypesNorm (scoreCtxOf [] (fun _ => none) [⟨1, some 0, none, none, none, none⟩] 0)
      ⟨1, some 0, none, none, none, none⟩ = 0 :=
  ((all_zero_signal_normalizes_to_zero [] (fun _ => none)
      [⟨1, some 0, none, none, none, none⟩] 0).1
    (by intro g' hg'; rcases List.mem_singleton.mp hg' with rfl; rfl)).2
    ⟨1, some 0, none, none, none, none⟩ (List.mem_singleton.mpr rfl)

/-! ## C9 -/

/-- **C9.**  The scoring function is deterministic: two evaluations given
the same candidate, the same selected types, extensionally equal per-type
primitive dicts and maxima dicts, the same pool maxima and the same
evaluation time produce the same score.  There is no hidden state: the
score depends only on the listed inputs (and only through dict lookups). -/
theorem compute_score_deterministic
    (ctxA ctxB : ScoreCtx) (gA gB : Game)
    (hsel : ctxA.selected_ids = ctxB.selected_ids)
    (hpbt : ∀ tid gid, dictGetD (dictGetD ctxA.primitive_by_type tid []) gid 0
          = dictGetD (dictGetD ctxB.primitive_by_type tid []) gid 0)
    (hmvt : ∀ tid, dictGetD ctxA.max_value_by_type tid 1
          = dictGetD ctxB.max_value_by_type tid 1)
    (hmh : ctxA.max_hypes_in_pool = ctxB.max_hypes_in_pool)
    (hmf : ctxA.max_follows_in_pool = ctxB.max_follows_in_pool)
    (hmr : ctxA.max_rating = ctxB.max_rating)
    (hnow : ctxA.now = ctxB.now)
    (hg : gA = gB) :
    compute_score ctxA gA = compute_score ctxB gB := by
  subst hg
  have hw : per_primitive_weight ctxA = per_primitive_weight ctxB := by
    unfold per_primitive_weight; rw [hsel]
  have hprim : ∀ tid gid, primNorm ctxA tid gid = primNorm ctxB tid gid := by
    intro tid gid
    unfold primNorm
    rw [hpbt tid gid, hmvt tid]
  unfold compute_score
  rw [hsel, List.foldl_ext _ _ 0 (fun a tid _ => by rw [hw, hprim])]
  unfold hypesNorm followsNorm ratingNorm
  rw [hmh, hmf, hmr, hnow]

/-- Witness for C9: the theorem instantiated at identical concrete inputs. -/
theorem compute_score_deterministic_witness :
    compute_score (scoreCtxOf [5] exPrimFetch exPool 0) exG1
      = compute_score (scoreCtxOf [5] exPrimFetch exPool 0) exG1 :=
  compute_score_deterministic _ _ exG1 exG1 rfl (fun _ _ => rfl) (fun _ => rfl)
    rfl rfl rfl rfl rfl

/-! ## Chunking and batch-gathering lemmas -/

theorem chunkedGo_flatten (size : Nat) (hs : size ≠ 0) :
    ∀ (fuel : Nat) (l : List Int), l.length ≤ fuel →
      (chunkedGo size fuel l).flatten = l := by
  intro fuel
  induction fuel with
  | zero =>
    intro l hl
    have h0 : l = [] := List.length_eq_zero.mp (Nat.le_zero.mp hl)
    subst h0
    rfl
  | succ n ih =>
    intro l hl
    by_cases hl0 : l = []
    · subst hl0; rfl
    · show (if l = [] ∨ size = 0 then ([] : List (List Int))
            else (l.take size) :: chunkedGo size n (l.drop size)).flatten = l
      rw [if_neg (by tauto)]
      rw [List.flatten_cons, ih (l.drop size) ?_, List.take_append_drop]
      have h1 : 0 < l.length := List.length_pos.mpr hl0
      have h2 : 0 < size := Nat.pos_of_ne_zero hs
      rw [List.length_drop]
      omega

/-- Every element of `chunked l size` is a slice of `l`, and their
concatenation is `l` itself (for the nonzero slice size the source uses). -/
theorem chunked_flatten (l : List Int) (size : Nat) (hs : size ≠ 0) :
    (chunked l size).flatten = l :=
  chunkedGo_flatten size hs l.length l (le_refl _)

/-- A batch loop over chunks equals concatenating each batch's contribution,
a failed batch contributing the empty list. -/
theorem gatherDetails_eq (batchFetch : List Int → Option (List Game))
    (chunks : List (List Int)) :
    gatherDetails batchFetch chunks
      = (chunks.map fun c => (batchFetch c).getD []).flatten := by
  unfold gatherDetails
  suffices h : ∀ acc : List Game,
      chunks.foldl (fun acc c => match batchFetch c with
                                 | some gs => acc ++ gs
                                 | none => acc) acc
        = acc ++ (chunks.map fun c => (batchFetch c).getD []).flatten by
    simpa using h []
  induction chunks with
  | nil => intro acc; simp
  | cons c cs ih =>
    intro acc
    simp only [List.foldl_cons, List.map_cons, List.flatten_cons]
    cases hc : batchFetch c with
    | some gs => rw [ih]; simp [List.append_assoc]
    | none => rw [ih]; simp

theorem gather_ids_subset (batchFetch : List Int → Option (List Game)) :
    ∀ (chunks : List (List Int)),
      (∀ c ∈ chunks, ∀ r, batchFetch c = some r → ∀ g ∈ r, g.id ∈ c) →
      ∀ a ∈ (gatherDetails batchFetch chunks).map Game.id, a ∈ chunks.flatten := by
  intro chunks
  induction chunks with
  | nil => intro _ a ha; rw [gatherDetails_eq] at ha; simp at ha
  | cons c cs ih =>
    intro hb a ha
    rw [gatherDetails_eq, List.map_cons, List.flatten_cons, List.map_append] at ha
    rw [List.flatten_cons]
    rcases List.mem_append.mp ha with h | h
    · obtain ⟨g, hg, hga⟩ := List.mem_map.mp h
      apply List.mem_append.mpr
      left
      cases hc : batchFetch c with
      | none => rw [hc] at hg; cases hg
      | some r =>
        rw [hc] at hg
        exact hga ▸ hb c (List.mem_cons_self _ _) r hc g hg
    · apply List.mem_append.mpr
      right
      apply ih (fun c' hc' => hb c' (List.mem_cons.mpr (Or.inr hc'))) a
      rw [gatherDetails_eq]
      exact h

/-- If the chunks are globally duplicate-free, each successful batch returns
duplicate-free ids drawn from its own chunk, then the gathered details carry
pairwise distinct game ids. -/
theorem gather_ids_nodup (batchFetch : List Int → Option (List Game)) :
    ∀ (chunks : List (List Int)),
      chunks.flatten.Nodup →
      (∀ c ∈ chunks, ∀ r, batchFetch c = some r →
        (r.map Game.id).Nodup ∧ ∀ g ∈ r, g.id ∈ c) →
      ((gatherDetails batchFetch chunks).map Game.id).Nodup := by
  intro chunks
  induction chunks with
  | nil => intro _ _; rw [gatherDetails_eq]; simp
  | cons c cs ih =>
    intro hnd hb
    rw [gatherDetails_eq, List.map_cons, List.flatten_cons, List.map_append,
      List.nodup_append]
    rw [List.flatten_cons, List.nodup_append] at hnd
    obtain ⟨hc_nd, hcs_nd, hdisj⟩ := hnd
    refine ⟨?_, ?_, ?_⟩
    · cases hc : batchFetch c with
      | none => simp
      | some r => simpa using (hb c (List.mem_cons_self _ _) r hc).1
    · rw [← gatherDetails_eq]
      exact ih hcs_nd (fun c' hc' => hb c' (List.mem_cons.mpr (Or.inr hc')))
    · intro a ha ha'
      have h1 : a ∈ c := by
        obtain ⟨g, hg, hga⟩ := List.mem_map.mp ha
        cases hc : batchFetch c with
        | none => rw [hc] at hg; cases hg
        | some r =>
          rw [hc] at hg
          exact hga ▸ (hb c (List.mem_cons_self _ _) r hc).2 g hg
      have h2 : a ∈ cs.flatten := by
        apply gather_ids_subset batchFetch cs
          (fun c' hc' r hr => (hb c' (List.mem_cons.mpr (Or.inr hc')) r hr).2)
        rwa [gatherDetails_eq]
      exact hdisj h1 h2

/-! ## C6 -/

/-- **C6.**  A successful run of the multi-signal popular-section build
returns at most `POPULAR_COUNT` entries, with pairwise distinct game ids.
The hypothesis records the provider contract: a batch fetch returns each
requested id at most once (ids are the provider's primary key) and only ids
it was asked for. -/
theorem popular_section_bounded_and_nodup
    (selIds : List Int) (primFetch : Int → Option (List PrimRow))
    (fallbackRes : Option (List Game)) (batchFetch : List Int → Option (List Game))
    (now : Int) (top : List Game) (logs : List String)
    (hbatch : ∀ c ∈ chunked (candidateListOf selIds primFetch fallbackRes) 200,
      ∀ r, batchFetch c = some r → (r.map Game.id).Nodup ∧ ∀ g ∈ r, g.id ∈ c)
    (hok : build_popular_core selIds primFetch fallbackRes batchFetch now = (.ok top, logs)) :
    top.length ≤ POPULAR_COUNT ∧ (top.map Game.id).Nodup := by
  unfold build_popular_core at hok
  by_cases hcl : candidateListOf selIds primFetch fallbackRes = []
  · rw [if_pos hcl] at hok
    cases hok
  · rw [if_neg hcl] at hok
    by_cases hgd : gatherDetails batchFetch (chunked (candidateListOf selIds primFetch fallbackRes) 200) = []
    · rw [if_pos hgd] at hok
      cases hok
    · rw [if_neg hgd] at hok
      have htop : top =
          ((gatherDetails batchFetch (chunked (candidateListOf selIds primFetch fallbackRes) 200)).insertionSort
            (fun a b =>
              compute_score (scoreCtxOf selIds primFetch
                (gatherDetails batchFetch (chunked (candidateListOf selIds primFetch fallbackRes) 200)) now) b ≤
              compute_score (scoreCtxOf selIds primFetch
                (gatherDetails batchFetch (chunked (candidateListOf selIds primFetch fallbackRes) 200)) now) a)).take
            POPULAR_COUNT := by
        have := congrArg Prod.fst hok
        simpa using this.symm
      have hnd : ((gatherDetails batchFetch (chunked (candidateListOf selIds primFetch fallbackRes) 200)).map Game.id).Nodup := by
        apply gather_ids_nodup batchFetch _ _ hbatch
        rw [chunked_flatten _ _ (by norm_num)]
        exact List.nodup_dedup _
      constructor


      · rw [htop, List.length_take]
        exact min_le_left _ _
      · rw [htop, List.map_take]
        apply List.Nodup.sublist (List.take_sublist _ _)
        have hperm := List.perm_insertionSort
          (fun a b =>
            compute_score (scoreCtxOf selIds primFetch
              (gatherDetails batchFetch (chunked (candidateListOf selIds primFetch fallbackRes) 200)) now) b ≤
            compute_score (scoreCtxOf selIds primFetch
              (gatherDetails batchFetch (chunked (candidateListOf selIds primFetch fallbackRes) 200)) now) a)
          (gatherDetails batchFetch (chunked (candidateListOf selIds primFetch fallbackRes) 200))
        exact ((hperm.map Game.id).nodup_iff).mpr hnd

/-! ### Concrete collaborators for the build-level witnesses -/

def mkGame (i : Int) : Game := ⟨i, none, none, none, none, none⟩

def exPrimFetchOne : Int → Option (List PrimRow) :=
  fun tid => if tid = 5 then some [⟨some 1, some 10⟩] else none

def exBatchFetch : List Int → Option (List Game) :=
  fun c => some (c.map mkGame)

/-- Witness for C6: a one-candidate pool whose single batch succeeds; the
build returns one entry, within bound and duplicate-free. -/
theorem popular_section_bounded_and_nodup_witness :
    (([mkGame 1] : List Game).length ≤ POPULAR_COUNT) ∧
    (([mkGame 1] : List Game).map Game.id).Nodup :=
  popular_section_bounded_and_nodup [5] exPrimFetchOne none exBatchFetch 0
    [mkGame 1] []
    (by
      intro c hc r hr
      have hchunks : chunked (candidateListOf [5] exPrimFetchOne none) 200 = [[1]] := rfl
      rw [hchunks] at hc
      have hc' : c = [1] := List.mem_singleton.mp hc
      subst hc'
      cases hr
      decide)
    rfl

/-! ## C7 -/

/-- Counterexample to **C7 as stated**: a run whose only candidate-detail
batch fails ends with `game_details = []`, and the `max()` calls at lines
293-295 (which have no `default`) raise an uncaught `ValueError`: the run
aborts instead of completing with a result. -/
theorem all_batches_failed_cex :
    (build_popular_core [5] exPrimFetchOne none (fun _ => none) 0).1
      = BuildOutcome.crashed := rfl

/-- **C7 (amended).**  On any run reaching the batch phase: a failed batch is
logged and contributes nothing (the gathered details are exactly the
concatenation of the successful batches' results); the run completes with a
ranked result whenever at least one game is gathered; but if *every* batch
fails or returns no games, the pool-maximum computation raises an uncaught
`ValueError` and the run aborts. -/
theorem batch_failures_soft_until_pool_empty
    (selIds : List Int) (primFetch : Int → Option (List PrimRow))
    (fallbackRes : Option (List Game)) (batchFetch : List Int → Option (List Game))
    (now : Int)
    (hcl : candidateListOf selIds primFetch fallbackRes ≠ []) :
    (gatherDetails batchFetch (chunked (candidateListOf selIds primFetch fallbackRes) 200)
      = ((chunked (candidateListOf selIds primFetch fallbackRes) 200).map
          fun c => (batchFetch c).getD []).flatten) ∧
    (∀ c ∈ chunked (candidateListOf selIds primFetch fallbackRes) 200,
      batchFetch c = none →
      "[popular] error fetching game batch"
        ∈ (build_popular_core selIds primFetch fallbackRes batchFetch now).2) ∧
    (gatherDetails batchFetch (chunked (candidateListOf selIds primFetch fallbackRes) 200) ≠ [] →
      (build_popular_core selIds primFetch fallbackRes batchFetch now).1
        = BuildOutcome.ok
            (((gatherDetails batchFetch (chunked (candidateListOf selIds primFetch fallbackRes) 200)).insertionSort
              (fun a b =>
                compute_score (scoreCtxOf selIds primFetch
                  (gatherDetails batchFetch (chunked (candidateListOf selIds primFetch fallbackRes) 200)) now) b ≤
                compute_score (scoreCtxOf selIds primFetch
                  (gatherDetails batchFetch (chunked (candidateListOf selIds primFetch fallbackRes) 200)) now) a)).take
              POPULAR_COUNT)) ∧
    (gatherDetails batchFetch (chunked (candidateListOf selIds primFetch fallbackRes) 200) = [] →
      (build_popular_core selIds primFetch fallbackRes batchFetch now).1
        = BuildOutcome.crashed) := by
  refine ⟨gatherDetails_eq _ _, ?_, ?_, ?_⟩
  · intro c hc hfail
    have hmem : "[popular] error fetching game batch"
        ∈ batchLogsOf batchFetch (chunked (candidateListOf selIds primFetch fallbackRes) 200) := by
      apply List.mem_filterMap.mpr
      exact ⟨c, hc, by rw [hfail]⟩
    unfold build_popular_core
    rw [if_neg hcl]
    by_cases hgd : gatherDetails batchFetch (chunked (candidateListOf selIds primFetch fallbackRes) 200) = []
    · rw [if_pos hgd]
      exact List.mem_append.mpr (Or.inr hmem)
    · rw [if_neg hgd]
      exact List.mem_append.mpr (Or.inr hmem)
  · intro hgd
    unfold build_popular_core
    rw [if_neg hcl, if_neg hgd]
  · intro hgd
    unfold build_popular_core
    rw [if_neg hcl, if_pos hgd]

/-- Witness for the amended C7: the single batch "succeeds" with an empty
result, so the gathered pool is empty and the run aborts. -/
theorem batch_failures_soft_until_pool_empty_witness :
    candidateListOf [5] exPrimFetchOne none ≠ [] ∧
    (build_popular_core [5] exPrimFetchOne none (fun _ => some []) 0).1
      = BuildOutcome.crashed :=
  ⟨by decide,
   (batch_failures_soft_until_pool_empty [5] exPrimFetchOne none
      (fun _ => some []) 0 (by decide)).2.2.2 rfl⟩

/-! ## C10 -/

/-- **C10.**  When the hype-sorted fallback-pool fetch raises: the `except`
clause is silent (the block prints no log line on either path), the
`max_hypes`/`max_follows` bindings default to `1`, the candidate pool gains
no ids (it consists solely of ids drawn from the popularity primitives), and
the build proceeds exactly as if the fetch had returned an empty page — no
abort. -/
theorem fallback_fetch_failure_soft
    (selIds : List Int) (primFetch : Int → Option (List PrimRow))
    (batchFetch : List Int → Option (List Game)) (now : Int) :
    fallbackStep none = (([], 1, 1), []) ∧
    candidateListOf selIds primFetch none = (primCandidateIds selIds primFetch).dedup ∧
    build_popular_core selIds primFetch none batchFetch now
      = build_popular_core selIds primFetch (some []) batchFetch now := by
  refine ⟨rfl, ?_, rfl⟩
  unfold candidateListOf fallbackStep
  simp

/-! ## C8 -/

/-- The claim's precondition on one genre name: id resolution misses (the
lookup returns nothing, or the falsy id `0`), or the count query reports no
matches. -/
def genreUnresolvedOrEmpty (nameToId : String → Option Int) (count : Int → Int)
    (name : String) : Prop :=
  match nameToId name with
  | none => True
  | some gid => gid = 0 ∨ count gid ≤ 0

theorem build_genres_ok_keys (nameToId : String → Option Int) (count : Int → Int)
    (pick : Int → Int) (fetch : Int → Int → List (List (String × JVal))) :
    ∀ (names : List String) (out : List (String × List (List (String × JVal)))),
      build_genres_section nameToId count pick fetch names = .ok out →
      out.map Prod.fst = names := by
  intro names
  induction names with
  | nil =>
    intro out h
    cases h
    rfl
  | cons name rest ih =>
    intro out h
    unfold build_genres_section at h
    cases hentry : genreEntry nameToId count pick fetch name with
    | error e => rw [hentry] at h; cases h
    | ok ts =>
      rw [hentry] at h
      cases hrec : build_genres_section nameToId count pick fetch rest with
      | error e => rw [hrec] at h; cases h
      | ok r =>
        rw [hrec] at h
        cases h
        show name :: r.map Prod.fst = name :: rest
        rw [ih r hrec]

theorem genreEntry_of_unresolved (nameToId : String → Option Int) (count : Int → Int)
    (pick : Int → Int) (fetch : Int → Int → List (List (String × JVal)))
    (name : String) (hcond : genreUnresolvedOrEmpty nameToId count name) :
    genreEntry nameToId count pick fetch name = .ok [] := by
  unfold genreUnresolvedOrEmpty at hcond
  unfold genreEntry
  cases hid : nameToId name with
  | none => simp only [hid]
  | some gid =>
    rw [hid] at hcond
    simp only [hid]
    rcases hcond with h0 | hcnt
    · rw [if_pos h0]
    · by_cases h0 : gid = 0
      · rw [if_pos h0]
      · rw [if_neg h0, if_pos hcnt]

theorem build_genres_miss_empty (nameToId : String → Option Int) (count : Int → Int)
    (pick : Int → Int) (fetch : Int → Int → List (List (String × JVal))) :
    ∀ (names : List String) (out : List (String × List (List (String × JVal)))),
      build_genres_section nameToId count pick fetch names = .ok out →
      ∀ name ∈ names, genreUnresolvedOrEmpty nameToId count name →
      slookup name out = some [] := by
  intro names
  induction names with
  | nil => intro out _ name hname; cases hname
  | cons name' rest ih =>
    intro out h name hname hcond
    unfold build_genres_section at h
    cases hentry : genreEntry nameToId count pick fetch name' with
    | error e => rw [hentry] at h; cases h
    | ok ts =>
      rw [hentry] at h
      cases hrec : build_genres_section nameToId count pick fetch rest with
      | error e => rw [hrec] at h; cases h
      | ok r =>
        rw [hrec] at h
        cases h
        by_cases heq : name' = name
        · subst heq
          have hts : ts = [] := by
            rw [genreEntry_of_unresolved nameToId count pick fetch name' hcond] at hentry
            cases hentry
            rfl
          subst hts
          show slookup name' ((name', []) :: r) = some []
          unfold slookup
          rw [if_pos rfl]
        · show slookup name ((name', ts) :: r) = some []
          unfold slookup
          rw [if_neg heq]
          refine ih r hrec name ?_ hcond
          rcases List.mem_cons.mp hname with h | h
          · exact absurd h.symm heq
          · exact h

/-- **C8.**  On any run in which the genre loop completes, the produced
genres mapping has as keys exactly the configured `GENRE_NAMES`, in order;
and every genre whose id resolution misses (or resolves to the falsy `0`) or
whose match count is non-positive maps to the empty list — the loop records
the empty list and moves on. -/
theorem genres_section_keys_exact
    (nameToId : String → Option Int) (count : Int → Int) (pick : Int → Int)
    (fetch : Int → Int → List (List (String × JVal)))
    (out : List (String × List (List (String × JVal))))
    (hok : build_genres_section nameToId count pick fetch GENRE_NAMES = .ok out) :
    out.map Prod.fst = GENRE_NAMES ∧
    ∀ name ∈ GENRE_NAMES, genreUnresolvedOrEmpty nameToId count name →
      slookup name out = some [] :=
  ⟨build_genres_ok_keys nameToId count pick fetch GENRE_NAMES out hok,
   fun name hm hc =>
     build_genres_miss_empty nameToId count pick fetch GENRE_NAMES out hok name hm hc⟩

/-- Witness for C8: no genre name resolves, so the section maps every
configured name — in order — to the empty list. -/
theorem genres_section_keys_exact_witness :
    ((GENRE_NAMES.map fun n => (n, ([] : List (List (String × JVal))))).map Prod.fst
        = GENRE_NAMES) ∧
    slookup "MOBA" (GENRE_NAMES.map fun n => (n, ([] : List (List (String × JVal)))))
        = some [] :=
  ⟨(genres_section_keys_exact (fun _ => none) (fun _ => 0) (fun _ => 0) (fun _ _ => [])
      (GENRE_NAMES.map fun n => (n, [])) rfl).1,
   (genres_section_keys_exact (fun _ => none) (fun _ => 0) (fun _ => 0) (fun _ _ => [])
      (GENRE_NAMES.map fun n => (n, [])) rfl).2 "MOBA" (by decide) trivial⟩

/-! ## String-replacement lemmas and C4 -/

theorem replaceAux_of_no_occurrence (pat rep : List Char) :
    ∀ (fuel : Nat) (l : List Char), hasSub pat l = false →
      replaceAux pat rep fuel l = l := by
  intro fuel
  induction fuel with
  | zero => intro l _; cases l <;> rfl
  | succ n ih =>
    intro l hno
    cases l with
    | nil => rfl
    | cons c rest =>
      unfold hasSub at hno
      rw [Bool.or_eq_false_iff] at hno
      obtain ⟨hp, hr⟩ := hno
      show (if pat ≠ [] ∧ pat.isPrefixOf (c :: rest) then
              rep ++ replaceAux pat rep n ((c :: rest).drop pat.length)
            else c :: replaceAux pat rep n rest) = c :: rest
      rw [if_neg (fun hcontra => by rw [hp] at hcontra; exact Bool.false_ne_true hcontra.2)]
      rw [ih rest hr]

/-- `str.replace` is the identity on subjects free of the pattern. -/
theorem pyReplace_no_occurrence (s pat rep : String)
    (hno : hasSub pat.data s.data = false) : pyReplace s pat rep = s := by
  unfold pyReplace
  rw [replaceAux_of_no_occurrence pat.data rep.data s.data.length s.data hno]

theorem truthy_jstr_of_ne {s : String} (hs : s ≠ "") :
    (JVal.jstr s).truthy = true := by
  simp [JVal.truthy, hs]

/-- Counterexample to **C4 as stated**: transforming a raw record, re-wrapping
the produced cover URL back into the raw cover position, and transforming
again does *not* leave the URL unchanged — `format_cover_url` unconditionally
prepends another `"https:"`. -/
theorem transform_not_idempotent_cex :
    transform_game [("cover", .jobj [("url",
        .jstr "//images.igdb.com/igdb/image/upload/t_thumb/co1.jpg")])]
      = .ok (scalarPart [("cover", .jobj [("url",
          .jstr "//images.igdb.com/igdb/image/upload/t_thumb/co1.jpg")])]
        ++ [("cover_url", .jstr "https://images.igdb.com/igdb/image/upload/t_cover_big/co1.jpg")]) ∧
    transform_game [("cover", .jobj [("url",
        .jstr "https://images.igdb.com/igdb/image/upload/t_cover_big/co1.jpg")])]
      = .ok (scalarPart [("cover", .jobj [("url",
          .jstr "https://images.igdb.com/igdb/image/upload/t_cover_big/co1.jpg")])]
        ++ [("cover_url", .jstr "https:https://images.igdb.com/igdb/image/upload/t_cover_big/co1.jpg")]) ∧
    ("https:https://images.igdb.com/igdb/image/upload/t_cover_big/co1.jpg"
      ≠ "https://images.igdb.com/igdb/image/upload/t_cover_big/co1.jpg") :=
  ⟨rfl, rfl, by decide⟩

/-- **C4 (amended).**  A second application of the URL rewriting to an
already-rewritten (hence nonempty, thumbnail-token-free) cover or screenshot
URL changes it by exactly one more `"https:"` prefix: the token substitution
is a no-op, the protocol prefix is prepended unconditionally. -/
theorem format_urls_second_pass (s t : String) (hs : s ≠ "") (ht : t ≠ "")
    (h1 : hasSub ("t_thumb".data) s.data = false)
    (h2 : hasSub ("t_thumb".data) t.data = false) :
    format_cover_url (.jstr s) = .ok (.jstr ("https:" ++ s)) ∧
    format_screenshot_url (.jstr t) = .ok (.jstr ("https:" ++ t)) := by
  constructor
  · unfold format_cover_url
    rw [if_pos (truthy_jstr_of_ne hs)]
    show Except.ok (JVal.jstr ("https:" ++ pyReplace s "t_thumb" "t_cover_big")) = _
    rw [pyReplace_no_occurrence s _ _ h1]
  · unfold format_screenshot_url
    rw [if_pos (truthy_jstr_of_ne ht)]
    show Except.ok (JVal.jstr ("https:" ++ pyReplace t "t_thumb" "t_screenshot_med")) = _
    rw [pyReplace_no_occurrence t _ _ h2]

/-- Witness for the amended C4: the two URLs produced by a first transformer
pass. -/
theorem format_urls_second_pass_witness :
    format_cover_url (.jstr "https://images.igdb.com/igdb/image/upload/t_cover_big/co1.jpg")
      = .ok (.jstr ("https:" ++ "https://images.igdb.com/igdb/image/upload/t_cover_big/co1.jpg")) ∧
    format_screenshot_url (.jstr "https://images.igdb.com/igdb/image/upload/t_screenshot_med/co1.jpg")
      = .ok (.jstr ("https:" ++ "https://images.igdb.com/igdb/image/upload/t_screenshot_med/co1.jpg")) :=
  format_urls_second_pass
    "https://images.igdb.com/igdb/image/upload/t_cover_big/co1.jpg"
    "https://images.igdb.com/igdb/image/upload/t_screenshot_med/co1.jpg"
    (by decide) (by decide) (by decide) (by decide)

/-! ## C3: transformer analysis

Well-formedness of the two unguarded nested reads: the `cover` field, when
truthy, must be an object whose truthy `url` is a string, and `screenshots`,
when truthy, must be a list of objects each with a string-or-falsy `url` —
otherwise `transform_game` raises (only the classification loop sits in a
`try/except`). -/

def wfCoverB : JVal → Bool
  | .jobj cf =>
    (match jget cf "url" with
     | .jstr _ => true
     | u => !u.truthy)
  | v => !v.truthy

def wfShotB : JVal → Bool
  | .jobj fs =>
    (match jget fs "url" with
     | .jstr _ => true
     | u => !u.truthy)
  | _ => false

def wfShotsB : JVal → Bool
  | .jarr xs => xs.all wfShotB
  | v => !v.truthy

/-- The name kept (if any) for one classification entry: object entries with
a truthy `name` survive. -/
def truthyName? (x : JVal) : Option JVal :=
  match x with
  | .jobj fs => if (jget fs "name").truthy then some (jget fs "name") else none
  | _ => none

/-- The names the classification comprehension keeps: one per object entry
whose `name` is truthy. -/
def truthyNames (xs : List JVal) : List JVal :=
  xs.filterMap truthyName?

theorem slookup_append_of_some {β : Type} {k : String} {v : β}
    {a : List (String × β)} (b : List (String × β)) (h : slookup k a = some v) :
    slookup k (a ++ b) = some v := by
  induction a with
  | nil => cases h
  | cons p rest ih =>
    obtain ⟨k', v'⟩ := p
    by_cases hk : k' = k
    · subst hk
      simp only [slookup, if_pos rfl] at h ⊢
      exact h
    · simp only [slookup, if_neg hk] at h ⊢
      exact ih h

theorem slookup_append_of_none {β : Type} {k : String}
    {a : List (String × β)} (b : List (String × β)) (h : slookup k a = none) :
    slookup k (a ++ b) = slookup k b := by
  induction a with
  | nil => rfl
  | cons p rest ih =>
    obtain ⟨k', v'⟩ := p
    by_cases hk : k' = k
    · subst hk
      simp only [slookup, if_pos rfl] at h
      cases h
    · simp only [slookup, if_neg hk] at h ⊢
      exact ih h

theorem slookup_keyed_filterMap_not_mem (G : String → Option (List JVal)) (k : String) :
    ∀ (names : List String), k ∉ names →
      slookup k (names.filterMap fun n =>
        match G n with
        | some l => some (n, JVal.jarr l)
        | none => none) = none := by
  intro names
  induction names with
  | nil => intro _; rfl
  | cons n rest ih =>
    intro hk
    have hkn : n ≠ k := fun h => hk (h ▸ List.mem_cons_self n rest)
    have hkrest : k ∉ rest := fun h => hk (List.mem_cons.mpr (Or.inr h))
    rw [List.filterMap_cons]
    cases hGn : G n with
    | none =>
      simp only [hGn]
      exact ih hkrest
    | some l =>
      simp only [hGn]
      show slookup k ((n, JVal.jarr l) :: _) = none
      simp only [slookup, if_neg hkn]
      exact ih hkrest

theorem slookup_keyed_filterMap_mem (G : String → Option (List JVal)) (f : String) :
    ∀ (names : List String), names.Nodup → f ∈ names →
      slookup f (names.filterMap fun n =>
        match G n with
        | some l => some (n, JVal.jarr l)
        | none => none)
        = (G f).map JVal.jarr := by
  intro names
  induction names with
  | nil => intro _ hf; cases hf
  | cons n rest ih =>
    intro hnd hf
    rw [List.nodup_cons] at hnd
    obtain ⟨hnmem, hndrest⟩ := hnd
    rw [List.filterMap_cons]
    by_cases hfn : n = f
    · subst hfn
      cases hGn : G n with
      | none =>
        simp only [hGn]
        rw [slookup_keyed_filterMap_not_mem G n rest hnmem]
        rfl
      | some l =>
        simp only [hGn]
        show slookup n ((n, JVal.jarr l) :: _) = some (JVal.jarr l)
        simp only [slookup, if_pos rfl]
        rfl
    · have hfrest : f ∈ rest := by
        rcases List.mem_cons.mp hf with h | h
        · exact absurd h.symm hfn
        · exact h
      cases hGn : G n with
      | none =>
        simp only [hGn]
        exact ih hndrest hfrest
      | some l =>
        simp only [hGn]
        show slookup f ((n, JVal.jarr l) :: _) = _
        simp only [slookup, if_neg hfn]
        exact ih hndrest hfrest

theorem flattenStep_non_jobj (y : JVal) (acc : Option (List JVal))
    (hy : ∀ fs, y ≠ .jobj fs) : flattenStep y acc = none := by
  cases y with
  | jobj fs => exact absurd rfl (hy fs)
  | jnull => cases acc <;> rfl
  | jnum q => cases acc <;> rfl
  | jstr s => cases acc <;> rfl
  | jarr l => cases acc <;> rfl

theorem flattenNames_of_malformed : ∀ (xs : List JVal),
    (∃ x ∈ xs, ∀ fs, x ≠ .jobj fs) → flattenNames (.jarr xs) = none := by
  intro xs
  induction xs with
  | nil => intro ⟨x, hx, _⟩; cases hx
  | cons y rest ih =>
    intro ⟨x, hx, hxo⟩
    show flattenStep y (rest.foldr flattenStep (some [])) = none
    rcases List.mem_cons.mp hx with h | h
    · subst h
      exact flattenStep_non_jobj x _ hxo
    · have : flattenNames (.jarr rest) = none := ih ⟨x, h, hxo⟩
      show flattenStep y (flattenNames (.jarr rest)) = none
      rw [this]
      cases y <;> rfl

theorem flattenNames_of_wellformed : ∀ (xs : List JVal),
    (∀ x ∈ xs, ∃ fs, x = .jobj fs) →
    flattenNames (.jarr xs) = some (truthyNames xs) := by
  intro xs
  induction xs with
  | nil => intro _; rfl
  | cons y rest ih =>
    intro h
    obtain ⟨fs, hfs⟩ := h y (List.mem_cons_self y rest)
    subst hfs
    have hrest := ih fun x hx => h x (List.mem_cons.mpr (Or.inr hx))
    show flattenStep (.jobj fs) (flattenNames (.jarr rest)) = some (truthyNames (JVal.jobj fs :: rest))
    rw [hrest]
    show some (if (jget fs "name").truthy then jget fs "name" :: truthyNames rest
               else truthyNames rest)
      = some (truthyNames (JVal.jobj fs :: rest))
    unfold truthyNames
    rw [List.filterMap_cons]
    by_cases hn : (jget fs "name").truthy = true
    · rw [if_pos hn]
      have h1 : truthyName? (.jobj fs) = some (jget fs "name") := by
        show (if (jget fs "name").truthy then some (jget fs "name") else none) = _
        rw [if_pos hn]
      rw [h1]
    · rw [Bool.not_eq_true] at hn
      have hn' : ¬((jget fs "name").truthy = true) := by
        rw [hn]; exact Bool.false_ne_true
      rw [if_neg hn']
      have h1 : truthyName? (.jobj fs) = none := by
        show (if (jget fs "name").truthy then some (jget fs "name") else none) = none
        rw [if_neg hn']
      rw [h1]

theorem wfCover_truthy_shape {v : JVal} (hwf : wfCoverB v = true) (ht : v.truthy = true) :
    ∃ cf, v = .jobj cf ∧
      ((jget cf "url").truthy = true → ∃ s, jget cf "url" = .jstr s) := by
  cases v with
  | jobj cf =>
    refine ⟨cf, rfl, ?_⟩
    intro hu
    cases hurl : jget cf "url" with
    | jstr s => exact ⟨s, rfl⟩
    | jnull =>
      rw [hurl] at hu
      exact absurd hu (by simp [JVal.truthy])
    | jnum q =>
      exfalso
      have hwf' : (!(JVal.jnum q).truthy) = true := by
        have : wfCoverB (.jobj cf)
            = (match jget cf "url" with
               | .jstr _ => true
               | u => !u.truthy) := rfl
        rw [this, hurl] at hwf
        exact hwf
      rw [hurl] at hu
      rw [Bool.not_eq_true'] at hwf'
      exact Bool.false_ne_true (hwf'.symm.trans hu)
    | jarr xs =>
      exfalso
      have hwf' : (!(JVal.jarr xs).truthy) = true := by
        have : wfCoverB (.jobj cf)
            = (match jget cf "url" with
               | .jstr _ => true
               | u => !u.truthy) := rfl
        rw [this, hurl] at hwf
        exact hwf
      rw [hurl] at hu
      rw [Bool.not_eq_true'] at hwf'
      exact Bool.false_ne_true (hwf'.symm.trans hu)
    | jobj fs =>
      exfalso
      have hwf' : (!(JVal.jobj fs).truthy) = true := by
        have : wfCoverB (.jobj cf)
            = (match jget cf "url" with
               | .jstr _ => true
               | u => !u.truthy) := rfl
        rw [this, hurl] at hwf
        exact hwf
      rw [hurl] at hu
      rw [Bool.not_eq_true'] at hwf'
      exact Bool.false_ne_true (hwf'.symm.trans hu)
  | jnull => exact absurd ht (by simp [JVal.truthy])
  | jnum q =>
    exfalso
    have hwf' : (!(JVal.jnum q).truthy) = true := hwf
    rw [Bool.not_eq_true'] at hwf'
    exact Bool.false_ne_true (hwf'.symm.trans ht)
  | jstr s =>
    exfalso
    have hwf' : (!(JVal.jstr s).truthy) = true := hwf
    rw [Bool.not_eq_true'] at hwf'
    exact Bool.false_ne_true (hwf'.symm.trans ht)
  | jarr xs =>
    exfalso
    have hwf' : (!(JVal.jarr xs).truthy) = true := hwf
    rw [Bool.not_eq_true'] at hwf'
    exact Bool.false_ne_true (hwf'.symm.trans ht)

theorem wfShots_truthy_shape {v : JVal} (hwf : wfShotsB v = true) (ht : v.truthy = true) :
    ∃ xs, v = .jarr xs ∧ xs.all wfShotB = true := by
  cases v with
  | jarr xs => exact ⟨xs, rfl, hwf⟩
  | jnull => exact absurd ht (by simp [JVal.truthy])
  | jnum q =>
    exfalso
    have hwf' : (!(JVal.jnum q).truthy) = true := hwf
    rw [Bool.not_eq_true'] at hwf'
    exact Bool.false_ne_true (hwf'.symm.trans ht)
  | jstr s =>
    exfalso
    have hwf' : (!(JVal.jstr s).truthy) = true := hwf
    rw [Bool.not_eq_true'] at hwf'
    exact Bool.false_ne_true (hwf'.symm.trans ht)
  | jobj fs =>
    exfalso
    have hwf' : (!(JVal.jobj fs).truthy) = true := hwf
    rw [Bool.not_eq_true'] at hwf'
    exact Bool.false_ne_true (hwf'.symm.trans ht)

theorem coverPart_ok (raw : List (String × JVal))
    (hwf : wfCoverB (jget raw "cover") = true) :
    ∃ cl, coverPart raw = .ok cl ∧
      (∀ k, k ≠ "cover_url" → slookup k cl = none) ∧
      ((jget raw "cover").truthy = false → cl = []) := by
  by_cases ht : (jget raw "cover").truthy = true
  · obtain ⟨cf, hcf, hurl⟩ := wfCover_truthy_shape hwf ht
    by_cases hu : (jget cf "url").truthy = true
    · obtain ⟨s, hset⟩ := hurl hu
      refine ⟨[("cover_url", .jstr ("https:" ++ pyReplace s "t_thumb" "t_cover_big"))],
        ?_, ?_, ?_⟩
      · unfold coverPart
        rw [hcf]
        simp only [coverPartAux]
        rw [if_pos (hcf ▸ ht), if_pos hu, hset]
        have hfmt : format_cover_url (.jstr s)
            = .ok (.jstr ("https:" ++ pyReplace s "t_thumb" "t_cover_big")) := by
          unfold format_cover_url
          rw [if_pos (hset ▸ hu)]
        rw [hfmt]
        rfl
      · intro k hk
        have hne : ¬("cover_url" = k) := fun h => hk h.symm
        show (if "cover_url" = k
              then some (JVal.jstr ("https:" ++ pyReplace s "t_thumb" "t_cover_big"))
              else slookup k ([] : List (String × JVal))) = none
        rw [if_neg hne]
        rfl
      · intro hfalse
        rw [ht] at hfalse
        cases hfalse
    · refine ⟨[], ?_, fun k _ => rfl, fun _ => rfl⟩
      unfold coverPart
      rw [hcf]
      simp only [coverPartAux]
      rw [if_pos (hcf ▸ ht), if_neg hu]; rfl
  · refine ⟨[], ?_, fun k _ => rfl, fun _ => rfl⟩
    unfold coverPart
    cases hcv : jget raw "cover" with
    | jobj cf =>
      simp only [coverPartAux]
      rw [if_neg (hcv ▸ ht)]; rfl
    | jnull => rfl
    | jnum q =>
      simp only [coverPartAux]
      rw [if_neg (hcv ▸ ht)]; rfl
    | jstr s =>
      simp only [coverPartAux]
      rw [if_neg (hcv ▸ ht)]; rfl
    | jarr xs =>
      simp only [coverPartAux]
      rw [if_neg (hcv ▸ ht)]; rfl

theorem shotUrls_ok : ∀ (xs : List JVal), xs.all wfShotB = true →
    ∃ l, shotUrls xs = .ok l := by
  intro xs
  induction xs with
  | nil => intro _; exact ⟨[], rfl⟩
  | cons x rest ih =>
    intro hall
    rw [List.all_cons, Bool.and_eq_true] at hall
    obtain ⟨hx, hrest⟩ := hall
    obtain ⟨l, hl⟩ := ih hrest
    cases x with
    | jobj fs =>
      by_cases hu : (jget fs "url").truthy = true
      · have hs : ∃ s, jget fs "url" = .jstr s := by
          cases hurl : jget fs "url" with
          | jstr s => exact ⟨s, rfl⟩
          | jnull =>
            rw [hurl] at hu
            exact absurd hu (by simp [JVal.truthy])
          | jnum q =>
            exfalso
            have hx' : (!(JVal.jnum q).truthy) = true := by
              have : wfShotB (.jobj fs)
                  = (match jget fs "url" with
                     | .jstr _ => true
                     | u => !u.truthy) := rfl
              rw [this, hurl] at hx
              exact hx
            rw [hurl] at hu
            rw [Bool.not_eq_true'] at hx'
            exact Bool.false_ne_true (hx'.symm.trans hu)
          | jarr ys =>
            exfalso
            have hx' : (!(JVal.jarr ys).truthy) = true := by
              have : wfShotB (.jobj fs)
                  = (match jget fs "url" with
                     | .jstr _ => true
                     | u => !u.truthy) := rfl
              rw [this, hurl] at hx
              exact hx
            rw [hurl] at hu
            rw [Bool.not_eq_true'] at hx'
            exact Bool.false_ne_true (hx'.symm.trans hu)
          | jobj gs =>
            exfalso
            have hx' : (!(JVal.jobj gs).truthy) = true := by
              have : wfShotB (.jobj fs)
                  = (match jget fs "url" with
                     | .jstr _ => true
                     | u => !u.truthy) := rfl
              rw [this, hurl] at hx
              exact hx
            rw [hurl] at hu
            rw [Bool.not_eq_true'] at hx'
            exact Bool.false_ne_true (hx'.symm.trans hu)
        obtain ⟨s, hset⟩ := hs
        refine ⟨.jstr ("https:" ++ pyReplace s "t_thumb" "t_screenshot_med") :: l, ?_⟩
        simp only [shotUrls]
        rw [if_pos hu, hset]
        have hfmt : format_screenshot_url (.jstr s)
            = .ok (.jstr ("https:" ++ pyReplace s "t_thumb" "t_screenshot_med")) := by
          unfold format_screenshot_url
          rw [if_pos (hset ▸ hu)]
        rw [hfmt, hl]
        rfl
      · refine ⟨l, ?_⟩
        simp only [shotUrls]
        rw [if_neg hu]
        exact hl
    | jnull => exact absurd hx (by simp [wfShotB])
    | jnum q => exact absurd hx (by simp [wfShotB])
    | jstr s => exact absurd hx (by simp [wfShotB])
    | jarr ys => exact absurd hx (by simp [wfShotB])

theorem screenshotsPart_ok (raw : List (String × JVal))
    (hwf : wfShotsB (jget raw "screenshots") = true) :
    ∃ sl, screenshotsPart raw = .ok sl ∧
      (∀ k, k ≠ "screenshots" → slookup k sl = none) ∧
      ((jget raw "screenshots").truthy = false → sl = []) := by
  by_cases ht : (jget raw "screenshots").truthy = true
  · obtain ⟨xs, hxs, hall⟩ := wfShots_truthy_shape hwf ht
    obtain ⟨l, hl⟩ := shotUrls_ok xs hall
    refine ⟨[("screenshots", .jarr l)], ?_, ?_, ?_⟩
    · unfold screenshotsPart
      rw [hxs]
      simp only [screenshotsPartAux]
      rw [if_pos (hxs ▸ ht), hl]
      rfl
    · intro k hk
      have hne : ¬("screenshots" = k) := fun h => hk h.symm
      show (if "screenshots" = k then some (JVal.jarr l)
            else slookup k ([] : List (String × JVal))) = none
      rw [if_neg hne]
      rfl
    · intro hfalse
      rw [ht] at hfalse
      cases hfalse
  · refine ⟨[], ?_, fun k _ => rfl, fun _ => rfl⟩
    unfold screenshotsPart
    cases hss : jget raw "screenshots" with
    | jarr xs =>
      simp only [screenshotsPartAux]
      rw [if_neg (hss ▸ ht)]; rfl
    | jnull => rfl
    | jnum q =>
      simp only [screenshotsPartAux]
      rw [if_neg (hss ▸ ht)]; rfl
    | jstr s =>
      simp only [screenshotsPartAux]
      rw [if_neg (hss ▸ ht)]; rfl
    | jobj fs =>
      simp only [screenshotsPartAux]
      rw [if_neg (hss ▸ ht)]; rfl

theorem classField_not_scalar {f : String} (hf : f ∈ classFields)
    (raw : List (String × JVal)) : slookup f (scalarPart raw) = none := by
  fin_cases hf <;> rfl

theorem classField_ne_cover {f : String} (hf : f ∈ classFields) : f ≠ "cover_url" := by
  fin_cases hf <;> decide

theorem classField_ne_shots {f : String} (hf : f ∈ classFields) : f ≠ "screenshots" := by
  fin_cases hf <;> decide

/-- **C3 (amended).**  `transform_game` never throws provided the `cover`
field, when truthy, is an object whose truthy `url` is a string, and the
`screenshots` field, when truthy, is a list of objects each with a
string-or-falsy `url` (these are the only unguarded nested reads).  The
seven scalar keys are *always present* in the canonical record — with a
null value when the raw field is absent, not omitted; only `cover_url`,
`screenshots` and the classification keys are omitted when their raw fields
are absent (or falsy).  A malformed (non-object) entry inside a
classification list makes that *entire field* be omitted — only object
entries lacking a truthy `name` are skipped individually — while the rest
of the record is kept. -/
theorem transform_game_amended (raw : List (String × JVal))
    (hc : wfCoverB (jget raw "cover") = true)
    (hsh : wfShotsB (jget raw "screenshots") = true) :
    ∃ out, transform_game raw = .ok out ∧
      slookup "id" out = some (jget raw "id") ∧
      slookup "name" out = some (jget raw "name") ∧
      slookup "summary" out = some (jget raw "summary") ∧
      slookup "storyline" out = some (jget raw "storyline") ∧
      slookup "total_rating" out = some (jget raw "total_rating") ∧
      slookup "first_release_date" out = some (jget raw "first_release_date") ∧
      slookup "igdb_url" out = some (jget raw "url") ∧
      ((jget raw "cover").truthy = false → slookup "cover_url" out = none) ∧
      ((jget raw "screenshots").truthy = false → slookup "screenshots" out = none) ∧
      (∀ f ∈ classFields, slookup f raw = none → slookup f out = none) ∧
      (∀ f ∈ classFields, ∀ xs, jget raw f = .jarr xs →
        ((∃ x ∈ xs, ∀ fs, x ≠ .jobj fs) → slookup f out = none) ∧
        ((∀ x ∈ xs, ∃ fs, x = .jobj fs) →
          slookup f out = some (.jarr (truthyNames xs)))) := by
  obtain ⟨cl, hclEq, hclKeys, hclEmpty⟩ := coverPart_ok raw hc
  obtain ⟨sl, hslEq, hslKeys, hslEmpty⟩ := screenshotsPart_ok raw hsh
  have hclass : ∀ f ∈ classFields,
      slookup f (scalarPart raw ++ cl ++ sl ++ classPart raw)
        = (classValue raw f).map JVal.jarr := by
    intro f hf
    have s1 : slookup f (scalarPart raw ++ cl) = none := by
      rw [slookup_append_of_none _ (classField_not_scalar hf raw)]
      exact hclKeys f (classField_ne_cover hf)
    have s2 : slookup f (scalarPart raw ++ cl ++ sl) = none := by
      rw [slookup_append_of_none _ s1]
      exact hslKeys f (classField_ne_shots hf)
    rw [slookup_append_of_none _ s2]
    exact slookup_keyed_filterMap_mem (classValue raw) f classFields (by decide) hf
  refine ⟨scalarPart raw ++ cl ++ sl ++ classPart raw, ?_, ?_, ?_, ?_, ?_, ?_, ?_, ?_,
    ?_, ?_, ?_, ?_⟩
  · unfold transform_game
    rw [hclEq, hslEq]
    rfl
  · exact slookup_append_of_some _ (slookup_append_of_some _ (slookup_append_of_some _ rfl))
  · exact slookup_append_of_some _ (slookup_append_of_some _ (slookup_append_of_some _ rfl))
  · exact slookup_append_of_some _ (slookup_append_of_some _ (slookup_append_of_some _ rfl))
  · exact slookup_append_of_some _ (slookup_append_of_some _ (slookup_append_of_some _ rfl))
  · exact slookup_append_of_some _ (slookup_append_of_some _ (slookup_append_of_some _ rfl))
  · exact slookup_append_of_some _ (slookup_append_of_some _ (slookup_append_of_some _ rfl))
  · exact slookup_append_of_some _ (slookup_append_of_some _ (slookup_append_of_some _ rfl))
  · -- absent cover ⇒ no cover_url key
    intro hcf
    have hcl0 := hclEmpty hcf
    subst hcl0
    have s1 : slookup "cover_url" (scalarPart raw ++ ([] : List (String × JVal))) = none := by
      rw [slookup_append_of_none _
        (show slookup "cover_url" (scalarPart raw) = none from rfl)]
      rfl
    have s2 : slookup "cover_url" (scalarPart raw ++ ([] : List (String × JVal)) ++ sl) = none := by
      rw [slookup_append_of_none _ s1]
      exact hslKeys _ (by decide)
    rw [slookup_append_of_none _ s2]
    exact slookup_keyed_filterMap_not_mem (classValue raw) _ classFields (by decide)
  · -- absent screenshots ⇒ no screenshots key
    intro hsf
    have hsl0 := hslEmpty hsf
    subst hsl0
    have s1 : slookup "screenshots" (scalarPart raw ++ cl) = none := by
      rw [slookup_append_of_none _
        (show slookup "screenshots" (scalarPart raw) = none from rfl)]
      exact hclKeys _ (by decide)
    have s2 : slookup "screenshots" (scalarPart raw ++ cl ++ ([] : List (String × JVal))) = none := by
      rw [slookup_append_of_none _ s1]
      rfl
    rw [slookup_append_of_none _ s2]
    exact slookup_keyed_filterMap_not_mem (classValue raw) _ classFields (by decide)
  · -- absent classification field ⇒ key omitted
    intro f hf hnone
    rw [hclass f hf]
    unfold classValue
    rw [hnone]
    rfl
  · -- present classification list: malformed ⇒ field omitted wholesale,
    -- well-formed ⇒ the truthy names, one per surviving entry
    intro f hf xs hxs
    have hsome : slookup f raw = some (.jarr xs) := by
      cases hlk : slookup f raw with
      | none =>
        have hnull : jget raw f = .jnull := by
          unfold jget
          rw [hlk]
          rfl
        exact absurd (hxs.symm.trans hnull) (fun h => JVal.noConfusion h)
      | some v =>
        have hv : v = .jarr xs := by
          unfold jget at hxs
          rw [hlk] at hxs
          exact hxs
        rw [hv]
    have hcv : classValue raw f = flattenNames (.jarr xs) := by
      unfold classValue
      rw [hsome, hxs]
      rfl
    constructor
    · intro hmal
      rw [hclass f hf, hcv, flattenNames_of_malformed xs hmal]
      rfl
    · intro hwfent
      rw [hclass f hf, hcv, flattenNames_of_wellformed xs hwfent]
      rfl

/-- Counterexample to **C3 as stated**: (1) on the empty raw record the
`summary` key is *present with a null value*, not omitted; (2) the
transformer *throws* on a truthy non-object `cover` (nothing guards the
`cover.get` call), so it is not total; (3) a malformed (non-object) entry in
`genres` makes the *whole* `genres` key disappear — the well-formed `"RPG"`
entry is discarded with it, not kept. -/
theorem transform_null_keys_cex :
    transform_game [] = .ok (scalarPart []) ∧
    slookup "summary" (scalarPart []) = some .jnull ∧
    transform_game [("cover", .jnum 5)] = .error .attributeError ∧
    transform_game [("genres", .jarr [.jobj [("name", .jstr "RPG")], .jnum 7])]
      = .ok (scalarPart [("genres", .jarr [.jobj [("name", .jstr "RPG")], .jnum 7])]) ∧
    slookup "genres"
      (scalarPart [("genres", .jarr [.jobj [("name", .jstr "RPG")], .jnum 7])]) = none :=
  ⟨rfl, rfl, rfl, rfl, rfl⟩

/-- Concrete record exercising the amended C3: a name, a well-formed genre
entry and one without a truthy name, no cover, no screenshots. -/
def exRaw : List (String × JVal) :=
  [("name", .jstr "X"),
   ("genres", .jarr [.jobj [("name", .jstr "RPG")], .jobj [("id", .jnum 3)]])]

/-- Witness for the amended C3, instantiated at `exRaw`. -/
theorem transform_game_amended_witness :
    ∃ out, transform_game exRaw = .ok out ∧
      slookup "id" out = some (jget exRaw "id") ∧
      slookup "name" out = some (jget exRaw "name") ∧
      slookup "summary" out = some (jget exRaw "summary") ∧
      slookup "storyline" out = some (jget exRaw "storyline") ∧
      slookup "total_rating" out = some (jget exRaw "total_rating") ∧
      slookup "first_release_date" out = some (jget exRaw "first_release_date") ∧
      slookup "igdb_url" out = some (jget exRaw "url") ∧
      ((jget exRaw "cover").truthy = false → slookup "cover_url" out = none) ∧
      ((jget exRaw "screenshots").truthy = false → slookup "screenshots" out = none) ∧
      (∀ f ∈ classFields, slookup f exRaw = none → slookup f out = none) ∧
      (∀ f ∈ classFields, ∀ xs, jget exRaw f = .jarr xs →
        ((∃ x ∈ xs, ∀ fs, x ≠ .jobj fs) → slookup f out = none) ∧
        ((∀ x ∈ xs, ∃ fs, x = .jobj fs) →
          slookup f out = some (.jarr (truthyNames xs)))) :=
  transform_game_amended exRaw (by decide) (by decide)

end SyncGames
